import Mathlib

/-! Verification of the terrain-map generator driver (`map-generator/main.go`).

A shallow embedding of `main.go` and machine-checked statements about it.

Go strings are modelled by Lean `String`s (sequences of Unicode code points, so the
model covers the valid UTF-8 strings), byte slices by `List UInt8`.  The Go standard
library functions the program calls are modelled from their documentation; the
operating system, the JSON codec and the external `GenerateMap` kernel are fields of a
`World` against which `processMap` is run.
-/

namespace MapGenerator

set_option maxRecDepth 100000

/-! ## Data model -/

/-- Go `type MapItem struct { Name string; IsTest bool }`. -/
structure MapItem where
  Name : String
  IsTest : Bool
deriving DecidableEq

/-- Go `var maps = []MapItem{...}`: the built-in catalog (an omitted `IsTest` is `false`). -/
def maps : List MapItem :=
  [ ⟨"africa", false⟩,
    ⟨"asia", false⟩,
    ⟨"australia", false⟩,
    ⟨"achiran", false⟩,
    ⟨"baikal", false⟩,
    ⟨"baikalnukewars", false⟩,
    ⟨"betweentwoseas", false⟩,
    ⟨"blacksea", false⟩,
    ⟨"britannia", false⟩,
    ⟨"deglaciatedantarctica", false⟩,
    ⟨"eastasia", false⟩,
    ⟨"europe", false⟩,
    ⟨"europeclassic", false⟩,
    ⟨"falklandislands", false⟩,
    ⟨"faroeislands", false⟩,
    ⟨"fourislands", false⟩,
    ⟨"gatewaytotheatlantic", false⟩,
    ⟨"giantworldmap", false⟩,
    ⟨"halkidiki", false⟩,
    ⟨"iceland", false⟩,
    ⟨"italia", false⟩,
    ⟨"japan", false⟩,
    ⟨"mars", false⟩,
    ⟨"mena", false⟩,
    ⟨"montreal", false⟩,
    ⟨"northamerica", false⟩,
    ⟨"oceania", false⟩,
    ⟨"pangaea", false⟩,
    ⟨"pluto", false⟩,
    ⟨"southamerica", false⟩,
    ⟨"straitofgibraltar", false⟩,
    ⟨"world", false⟩,
    ⟨"big_plains", true⟩,
    ⟨"half_land_half_ocean", true⟩,
    ⟨"ocean_and_land", true⟩,
    ⟨"plains", true⟩,
    ⟨"giantworldmap", true⟩ ]

/-! ## Go `strings` functions used by `main` -/

/-- Go `unicode.IsSpace`: the code points with the Unicode White_Space property. -/
def isSpace (c : Char) : Bool :=
  let n := c.toNat
  (0x09 ≤ n && n ≤ 0x0D) || n == 0x20 || n == 0x85 || n == 0xA0 || n == 0x1680 ||
  (0x2000 ≤ n && n ≤ 0x200A) || n == 0x2028 || n == 0x2029 || n == 0x202F ||
  n == 0x205F || n == 0x3000

/-- Go `strings.TrimSpace`: all leading and trailing white space removed. -/
def TrimSpace (s : String) : String :=
  ⟨((s.data.dropWhile isSpace).reverse.dropWhile isSpace).reverse⟩

/-- Splitting a character list at every occurrence of `sep`; never returns `[]`. -/
def splitChars (sep : Char) : List Char → List (List Char)
  | [] => [[]]
  | c :: cs =>
    if c = sep then [] :: splitChars sep cs
    else
      match splitChars sep cs with
      | [] => [[c]]
      | w :: ws => (c :: w) :: ws

/-- Go `strings.Split(s, sep)` for a one-character separator: the substrings between
the separators, in order; a string without separator gives `[s]`. -/
def Split (s : String) (sep : Char) : List String :=
  (splitChars sep s.data).map String.mk

/-- Go `strings.HasPrefix`. -/
def HasPrefix (s pre : String) : Bool :=
  pre.data.isPrefixOf s.data

/-- Go `strings.TrimPrefix`: `s` without the leading `pre`, or `s` itself when it does
not start with `pre`. -/
def TrimPrefix (s pre : String) : String :=
  if HasPrefix s pre then ⟨s.data.drop pre.data.length⟩ else s

/-! ## `main`: the `--maps` override -/

/-- One iteration of the loop `for _, p := range parts { ... }` of `main`, with
`newMaps` the slice built so far. -/
def parsePart (newMaps : List MapItem) (p : String) : List MapItem :=
  let p := TrimSpace p
  if p = "" then newMaps
  else
    let isTest := HasPrefix p "test:"
    let p := if isTest then TrimPrefix p "test:" else p
    newMaps ++ [⟨p, isTest⟩]

/-- The slice `newMaps` of `main` after its loop over `strings.Split(*mapsFlag, ",")`. -/
def newMaps (mapsFlag : String) : List MapItem :=
  (Split mapsFlag ',').foldl parsePart []

/-- The value of the global `maps` when `main` calls `loadTerrainMaps`, as a function
of the value of the `--maps` flag (default `""`). -/
def mainMaps (mapsFlag : String) : List MapItem :=
  if mapsFlag ≠ "" then
    if (newMaps mapsFlag).length > 0 then newMaps mapsFlag else maps
  else maps

/-! ### The override as the specification words it -/

/-- The item an element `e` of the override stands for: a `test:` prefix marks a test
map and is removed from the name. -/
def specItem (e : String) : MapItem :=
  if HasPrefix e "test:" then ⟨⟨e.data.drop 5⟩, true⟩ else ⟨e, false⟩

/-- The override list of the specification: split on commas, trim each element, drop
the empty elements, map the rest to items, in order. -/
def specOverride (v : String) : List MapItem :=
  ((((Split v ',').map TrimSpace).filter (fun e => e ≠ "")).map specItem)

/-! ## Go values, errors and byte slices -/

/-- Go `[]byte`. -/
abbrev Bytes := List UInt8

/-- A Go `error` value: `base` is an error of the operating system or of a library,
`wrap msg inner` is what `fmt.Errorf` builds for a format ending in `%w`, with `msg` the
formatted text and `inner` the operand of `%w` (what `errors.Unwrap` returns). -/
inductive GoError where
  | base (msg : String)
  | wrap (msg : String) (inner : GoError)
deriving DecidableEq

/-- The method `Error()`: the text of the error. -/
def GoError.Error : GoError → String
  | .base msg => msg
  | .wrap msg _ => msg

/-- Go `fmt.Errorf(ctx + "%w", err)`, where `ctx` is the text the format produces before
the `%w` verb: the text is `ctx` followed by the text of `err`, and `err` is wrapped. -/
def Errorf (ctx : String) (err : GoError) : GoError :=
  .wrap (ctx ++ err.Error) err

/-- The dynamic values the program stores in `map[string]interface{}`: what
`encoding/json` decodes into an `interface{}` (`nil`, `bool`, `float64` given by its
IEEE-754 bit pattern, `string`, `[]interface{}`, `map[string]interface{}`) and the Go
`int`s of the layer dimensions.  A Go map is represented by a list of key/value pairs
read through `mapIndex` and written through `mapAssign`. -/
inductive GoValue where
  | nil
  | bool (b : Bool)
  | float64 (bits : Nat)
  | int (n : Int)
  | string (s : String)
  | slice (xs : List GoValue)
  | map (kvs : List (String × GoValue))

/-- Go `map[string]interface{}` (non-nil). -/
abbrev GoMap := List (String × GoValue)

/-- Go `v, ok := m[k]`: the value stored at `k`, if any. -/
def mapIndex (m : GoMap) (k : String) : Option GoValue :=
  (m.find? (fun kv => kv.1 = k)).map (fun kv => kv.2)

/-- Go `m[k] = v` on a non-nil map: `k` now holds `v`, every other key is untouched. -/
def mapAssign (m : GoMap) (k : String) (v : GoValue) : GoMap :=
  (k, v) :: m.filter (fun kv => kv.1 ≠ k)

/-! ## The generator interface -/

/-- Modelled from the spec: the argument record `GeneratorArgs` of the external
`GenerateMap`, declared outside `main.go`; its three fields are the ones `processMap`
fills in (`{ image_bytes, remove_small, name }` in the specification). -/
structure GeneratorArgs where
  ImageBuffer : Bytes
  RemoveSmall : Bool
  Name : String
deriving DecidableEq

/-- Modelled from the spec: one `MapLayer` of the generator result, declared outside
`main.go`: `{ width: integer, height: integer, num_land_tiles: integer, data: bytes }`. -/
structure MapInfo where
  Data : Bytes
  Width : Int
  Height : Int
  NumLandTiles : Int
deriving DecidableEq

/-- Modelled from the spec: the generator result, declared outside `main.go`: three
layers `map`, `map4x`, `map16x` plus a `thumbnail` byte sequence. -/
structure MapResult where
  Thumbnail : Bytes
  Map : MapInfo
  Map4x : MapInfo
  Map16x : MapInfo
deriving DecidableEq

/-! ## Go `path/filepath` (Unix) -/

/-- One component of a path being cleaned, `stk` holding the components kept so far,
last one first: empty components and `.` are dropped, `..` removes the component before
it, is dropped at the root of a rooted path and is kept at the start of a relative one. -/
def cleanStep (rooted : Bool) (stk : List (List Char)) (c : List Char) : List (List Char) :=
  if c = [] ∨ c = ['.'] then stk
  else if c = ['.', '.'] then
    match stk with
    | [] => if rooted then [] else [c]
    | t :: rest => if t = ['.', '.'] then c :: stk else rest
  else c :: stk

/-- Go `filepath.Clean` with separator `/`: the shortest path lexically equivalent to
`path`; the empty path cleans to `.`. -/
def Clean (path : String) : String :=
  let rooted := path.data.head? = some '/'
  let stk := (splitChars '/' path.data).foldl (cleanStep rooted) []
  let body := List.intercalate ['/'] stk.reverse
  if rooted then ⟨'/' :: body⟩
  else if body = [] then "." else ⟨body⟩

/-- Go `filepath.Join`: the elements from the first non-empty one on, joined with `/`,
then cleaned; `""` when every element is empty. -/
def Join (elem : List String) : String :=
  match elem.dropWhile (fun e => e = "") with
  | [] => ""
  | es => Clean ⟨List.intercalate ['/'] (es.map String.data)⟩

/-! ## The world `processMap` runs against -/

/-- The environment of one invocation of `processMap`: the results of the calls it makes
to the operating system, to `encoding/json` and to the external generator. -/
structure World where
  /-- Result of the `n`-th call (from 0) of `os.Getwd`. -/
  Getwd : Nat → Except GoError String
  /-- Result of `os.ReadFile(path)`. -/
  ReadFile : String → Except GoError Bytes
  /-- Result of decoding a JSON document into an `interface{}`: a syntax error, or the
  value of the document. -/
  jsonDecode : Bytes → Except GoError GoValue
  /-- The external `GenerateMap`. -/
  GenerateMap : GeneratorArgs → Except GoError MapResult
  /-- Result of `os.MkdirAll(path, perm)`: `none` is the nil error. -/
  MkdirAll : String → Nat → Option GoError
  /-- Result of `os.WriteFile(path, data, perm)`: `none` is the nil error. -/
  WriteFile : String → Bytes → Nat → Option GoError
  /-- Result of `json.MarshalIndent(m, prefix, indent)` on a string-keyed map. -/
  MarshalIndent : GoMap → String → String → Except GoError Bytes

/-- The calls with an effect outside the process that an invocation makes, in order. -/
inductive Event where
  | readFile (path : String)
  | generate (args : GeneratorArgs)
  | mkdirAll (path : String) (perm : Nat)
  | writeFile (path : String) (data : Bytes) (perm : Nat)
deriving DecidableEq

/-- How an invocation ends: it returns an `error` (`none` is `nil`), or it panics. -/
inductive Outcome where
  | returned (err : Option GoError)
  | panicked (msg : String)
deriving DecidableEq

/-- Go `json.Unmarshal(data, &manifest)` for `var manifest map[string]interface{}`, nil
before the call: a syntax error is returned; a JSON object fills a fresh map; the JSON
`null` sets the map to nil (`none`) and is no error; any other root leaves the map nil
and gives an `UnmarshalTypeError`. -/
def Unmarshal (w : World) (data : Bytes) : Except GoError (Option GoMap) :=
  match w.jsonDecode data with
  | .error err => .error err
  | .ok (.map kvs) => .ok (some kvs)
  | .ok .nil => .ok none
  | .ok (.bool _) =>
    .error (.base "json: cannot unmarshal bool into Go value of type map[string]interface {}")
  | .ok (.float64 _) =>
    .error (.base "json: cannot unmarshal number into Go value of type map[string]interface {}")
  | .ok (.int _) =>
    .error (.base "json: cannot unmarshal number into Go value of type map[string]interface {}")
  | .ok (.string _) =>
    .error (.base "json: cannot unmarshal string into Go value of type map[string]interface {}")
  | .ok (.slice _) =>
    .error (.base "json: cannot unmarshal array into Go value of type map[string]interface {}")

/-! ## `outputMapDir`, `inputMapDir`, `processMap` -/

/-- Go `outputMapDir(isTest)`, with `getwd` the result of its call of `os.Getwd`. -/
def outputMapDir (getwd : Except GoError String) (isTest : Bool) : Except GoError String :=
  match getwd with
  | .error err => .error (Errorf "failed to get working directory: " err)
  | .ok cwd =>
    if isTest then .ok (Join [cwd, "..", "tests", "testdata", "maps"])
    else .ok (Join [cwd, "..", "resources", "maps"])

/-- Go `inputMapDir(isTest)`, with `getwd` the result of its call of `os.Getwd`. -/
def inputMapDir (getwd : Except GoError String) (isTest : Bool) : Except GoError String :=
  match getwd with
  | .error err => .error (Errorf "failed to get working directory: " err)
  | .ok cwd =>
    if isTest then .ok (Join [cwd, "assets", "test_maps"])
    else .ok (Join [cwd, "assets", "maps"])

/-- Go `processMap(name, isTest)` run against `w`: how it ends, and the calls it made. -/
def processMap (w : World) (name : String) (isTest : Bool) : Outcome × List Event :=
  match outputMapDir (w.Getwd 0) isTest with
  | .error err => (.returned (some (Errorf "failed to get map directory: " err)), [])
  | .ok outputMapBaseDir =>
  match inputMapDir (w.Getwd 1) isTest with
  | .error err => (.returned (some (Errorf "failed to get input map directory: " err)), [])
  | .ok inputMapDir =>
  let inputPath := Join [inputMapDir, name, "image.png"]
  let t1 := [Event.readFile inputPath]
  match w.ReadFile inputPath with
  | .error err =>
    (.returned (some (Errorf ("failed to read map file " ++ inputPath ++ ": ") err)), t1)
  | .ok imageBuffer =>
  let manifestPath := Join [inputMapDir, name, "info.json"]
  let t2 := t1 ++ [Event.readFile manifestPath]
  match w.ReadFile manifestPath with
  | .error err =>
    (.returned (some (Errorf ("failed to read info file " ++ manifestPath ++ ": ") err)), t2)
  | .ok manifestBuffer =>
  match Unmarshal w manifestBuffer with
  | .error err =>
    (.returned (some (Errorf ("failed to parse info.json for " ++ name ++ ": ") err)), t2)
  | .ok manifest =>
  let args : GeneratorArgs := { ImageBuffer := imageBuffer, RemoveSmall := !isTest, Name := name }
  let t3 := t2 ++ [Event.generate args]
  match w.GenerateMap args with
  | .error err =>
    (.returned (some (Errorf ("failed to generate map for " ++ name ++ ": ") err)), t3)
  | .ok result =>
  match manifest with
  | none => (.panicked "assignment to entry in nil map", t3)
  | some manifest =>
  let manifest := mapAssign manifest "map" (.map [
    ("width", .int result.Map.Width),
    ("height", .int result.Map.Height),
    ("num_land_tiles", .int result.Map.NumLandTiles)])
  let manifest := mapAssign manifest "map4x" (.map [
    ("width", .int result.Map4x.Width),
    ("height", .int result.Map4x.Height),
    ("num_land_tiles", .int result.Map4x.NumLandTiles)])
  let manifest := mapAssign manifest "map16x" (.map [
    ("width", .int result.Map16x.Width),
    ("height", .int result.Map16x.Height),
    ("num_land_tiles", .int result.Map16x.NumLandTiles)])
  let mapDir := Join [outputMapBaseDir, name]
  let t4 := t3 ++ [Event.mkdirAll mapDir 0o755]
  match w.MkdirAll mapDir 0o755 with
  | some err =>
    (.returned (some (Errorf ("failed to create output directory for " ++ name ++ ": ") err)), t4)
  | none =>
  let t5 := t4 ++ [Event.writeFile (Join [mapDir, "map.bin"]) result.Map.Data 0o644]
  match w.WriteFile (Join [mapDir, "map.bin"]) result.Map.Data 0o644 with
  | some err =>
    (.returned (some (Errorf ("failed to write combined binary for " ++ name ++ ": ") err)), t5)
  | none =>
  let t6 := t5 ++ [Event.writeFile (Join [mapDir, "map4x.bin"]) result.Map4x.Data 0o644]
  match w.WriteFile (Join [mapDir, "map4x.bin"]) result.Map4x.Data 0o644 with
  | some err =>
    (.returned (some (Errorf ("failed to write combined binary for " ++ name ++ ": ") err)), t6)
  | none =>
  let t7 := t6 ++ [Event.writeFile (Join [mapDir, "map16x.bin"]) result.Map16x.Data 0o644]
  match w.WriteFile (Join [mapDir, "map16x.bin"]) result.Map16x.Data 0o644 with
  | some err =>
    (.returned (some (Errorf ("failed to write combined binary for " ++ name ++ ": ") err)), t7)
  | none =>
  let t8 := t7 ++ [Event.writeFile (Join [mapDir, "thumbnail.webp"]) result.Thumbnail 0o644]
  match w.WriteFile (Join [mapDir, "thumbnail.webp"]) result.Thumbnail 0o644 with
  | some err =>
    (.returned (some (Errorf ("failed to write thumbnail for " ++ name ++ ": ") err)), t8)
  | none =>
  match w.MarshalIndent manifest "" "  " with
  | .error err =>
    (.returned (some (Errorf ("failed to serialize manifest for " ++ name ++ ": ") err)), t8)
  | .ok updatedManifest =>
  let t9 := t8 ++ [Event.writeFile (Join [mapDir, "manifest.json"]) updatedManifest 0o644]
  match w.WriteFile (Join [mapDir, "manifest.json"]) updatedManifest 0o644 with
  | some err =>
    (.returned (some (Errorf ("failed to write manifest for " ++ name ++ ": ") err)), t9)
  | none => (.returned none, t9)

/-- The bytes of an ASCII text. -/
def asciiBytes (s : String) : Bytes :=
  s.data.map (fun c => UInt8.ofNat c.toNat)

/-- The number of binary digits of `n`, for `n < 2 ^ fuel`. -/
def bitLength : Nat → Nat → Nat
  | 0, _ => 0
  | fuel + 1, n => if n = 0 then 0 else bitLength fuel (n / 2) + 1

/-- The IEEE-754 bit pattern of the `float64` nearest to the natural number `n`, ties to
the even significand, for `0 < n < 2 ^ 1000`: what `strconv.ParseFloat` gives for the
integer literal `n`. -/
def float64OfNat (n : Nat) : Nat :=
  if n = 0 then 0
  else
    let len := bitLength 1000 n
    if len ≤ 53 then (len - 1 + 1023) * 2 ^ 52 + (n * 2 ^ (53 - len) - 2 ^ 52)
    else
      let shift := len - 53
      let q := n / 2 ^ shift
      let r := n % 2 ^ shift
      let half := 2 ^ (shift - 1)
      let q' := if r > half ∨ (r = half ∧ q % 2 = 1) then q + 1 else q
      if q' = 2 ^ 53 then (len + 1023) * 2 ^ 52
      else (len - 1 + 1023) * 2 ^ 52 + (q' - 2 ^ 52)

/-- The natural number a non-negative `float64` bit pattern stands for, when it is one
of `0 .. 2 ^ 53`. -/
def natOfFloat64 (bits : Nat) : Option Nat :=
  let e := bits / 2 ^ 52
  let m := 2 ^ 52 + bits % 2 ^ 52
  if bits = 0 then some 0
  else if e < 1023 ∨ 1076 < e then none
  else if 1075 ≤ e then
    if m * 2 ^ (e - 1075) ≤ 2 ^ 53 then some (m * 2 ^ (e - 1075)) else none
  else if m % 2 ^ (1075 - e) = 0 then some (m / 2 ^ (1075 - e)) else none

/-- The decimal digits of `n`, for `n < 10 ^ fuel`, in front of `acc`. -/
def digitsAux : Nat → Nat → List Char → List Char
  | 0, _, acc => acc
  | fuel + 1, n, acc =>
    if n < 10 then Char.ofNat (48 + n) :: acc
    else digitsAux fuel (n / 10) (Char.ofNat (48 + n % 10) :: acc)

/-- The decimal text of an integer below `10 ^ 40` in absolute value. -/
def intText (n : Int) : List Char :=
  if n < 0 then '-' :: digitsAux 40 n.natAbs [] else digitsAux 40 n.natAbs []

/-- Whether the JSON encoder writes the string as it is between quotes: printable ASCII
without `"`, `\`, `<`, `>` and `&`. -/
def plainText (s : String) : Bool :=
  s.data.all (fun c => 0x20 ≤ c.toNat && c.toNat < 0x7F && c != '"' && c != '\\' &&
    c != '<' && c != '>' && c != '&')

/-- The text `json.Marshal` writes for a scalar of the sample fragment: `nil`, booleans,
`int`s, the `float64`s that are naturals up to `2 ^ 53`, and plain strings. -/
def scalarText : GoValue → Option (List Char)
  | .nil => some "null".data
  | .bool true => some "true".data
  | .bool false => some "false".data
  | .int n => some (intText n)
  | .float64 bits => (natOfFloat64 bits).map (fun n => intText n)
  | .string s => if plainText s then some ('"' :: s.data ++ ['"']) else none
  | .slice _ => none
  | .map _ => none

/-- Insertion of a key into a list of keys sorted by code points. -/
def insertKey (k : String) : List String → List String
  | [] => [k]
  | k' :: ks => if k.data ≤ k'.data then k :: k' :: ks else k' :: insertKey k ks

/-- The keys of a map, each once, sorted as `json.Marshal` sorts them. -/
def sortedKeys (m : GoMap) : List String :=
  ((m.map (fun kv => kv.1)).eraseDups).foldr insertKey []

/-- The lines of the members of an object, `pad` being the indentation of the members
and `value` the text of a member value; `none` when a key or a value is outside the
sample fragment. -/
def memberLines (value : GoValue → Option (List Char)) (pad : List Char) (m : GoMap) :
    List String → Option (List (List Char))
  | [] => some []
  | k :: ks =>
    match mapIndex m k, memberLines value pad m ks with
    | some v, some rest =>
      match value v with
      | some text =>
        if plainText k then some ((pad ++ '"' :: k.data ++ "\": ".data ++ text) :: rest)
        else none
      | none => none
    | _, _ => none

/-- The text `json.MarshalIndent` writes for an object whose members are at indentation
`pad` and whose closing brace is at indentation `close`. -/
def objectText (value : GoValue → Option (List Char)) (pad close : List Char) (m : GoMap) :
    Option (List Char) :=
  match sortedKeys m with
  | [] => some ['\x7b', '\x7d']
  | ks =>
    (memberLines value pad m ks).map (fun lines =>
      '\x7b' :: '\n' :: List.intercalate [',', '\n'] lines ++ '\n' :: close ++ ['\x7d'])

/-- The encoder `json.MarshalIndent(m, prefix, indent)` on the sample fragment: a map of
scalars and of maps of scalars; it reports an error on every other map. -/
def sampleMarshalIndent (m : GoMap) (pre indent : String) : Except GoError Bytes :=
  let inner : GoValue → Option (List Char) := fun v =>
    match v with
    | .map kvs =>
      objectText scalarText (pre.data ++ indent.data ++ indent.data) (pre.data ++ indent.data) kvs
    | v => scalarText v
  match objectText inner (pre.data ++ indent.data) pre.data m with
  | some text => .ok (text.map (fun c => UInt8.ofNat c.toNat))
  | none => .error (.base "json: value outside the sample fragment")

/-- The sample manifest `{"tiles": 42}`. -/
def tilesInfo : String := "\x7b\"tiles\": 42\x7d"

/-- The sample manifest `{"map": "stale"}`. -/
def staleInfo : String := "\x7b\"map\": \"stale\"\x7d"

/-- The sample manifest `{}`. -/
def emptyInfo : String := "\x7b\x7d"

/-- The sample manifest `{"big": 9007199254740993}`, whose number is `2 ^ 53 + 1`. -/
def bigInfo : String := "\x7b\"big\": 9007199254740993\x7d"

/-- The `manifest.json` that `json.MarshalIndent` writes for `bigInfo` and the layers of
the sample generator. -/
def bigManifest : String :=
  "\x7b\n  \"big\": 9007199254740992,\n  \"map\": \x7b\n    \"height\": 2,\n    \"num_land_tiles\": 5,\n    \"width\": 4\n  \x7d,\n  \"map16x\": \x7b\n    \"height\": 1,\n    \"num_land_tiles\": 0,\n    \"width\": 1\n  \x7d,\n  \"map4x\": \x7b\n    \"height\": 1,\n    \"num_land_tiles\": 1,\n    \"width\": 2\n  \x7d\n\x7d"

/-- The decoder `json.Unmarshal` into an `interface{}` on the sample documents `null`,
`[]` and the four sample manifests, a number being decoded to the nearest `float64`; it
reports a syntax error on every other text. -/
def sampleDecode (data : Bytes) : Except GoError GoValue :=
  if data = asciiBytes "null" then .ok .nil
  else if data = asciiBytes "[]" then .ok (.slice [])
  else if data = asciiBytes emptyInfo then .ok (.map [])
  else if data = asciiBytes tilesInfo then .ok (.map [("tiles", .float64 (float64OfNat 42))])
  else if data = asciiBytes staleInfo then .ok (.map [("map", .string "stale")])
  else if data = asciiBytes bigInfo then
    .ok (.map [("big", .float64 (float64OfNat 9007199254740993))])
  else .error (.base "invalid character looking for beginning of value")

/-- A sample world: working directory `/repo/map-generator`, inputs present for the
production map `europe` only, its `info.json` holding the text `info`, a generator
returning fixed layers, every output operation succeeding, and the JSON codec of the
sample documents. -/
def sampleWorld (info : String) : World where
  Getwd := fun _ => .ok "/repo/map-generator"
  ReadFile := fun path =>
    if path = "/repo/map-generator/assets/maps/europe/image.png" then .ok [0x89, 0x50, 0x4E, 0x47]
    else if path = "/repo/map-generator/assets/maps/europe/info.json" then .ok (asciiBytes info)
    else .error (.base ("open " ++ path ++ ": no such file or directory"))
  jsonDecode := sampleDecode
  GenerateMap := fun args =>
    .ok { Thumbnail := [0x52, 0x49] ++ args.ImageBuffer.take 1,
          Map := { Data := [1, 2, 3, 4], Width := 4, Height := 2, NumLandTiles := 5 },
          Map4x := { Data := [1, 2], Width := 2, Height := 1, NumLandTiles := 1 },
          Map16x := { Data := [1], Width := 1, Height := 1, NumLandTiles := 0 } }
  MkdirAll := fun _ _ => none
  WriteFile := fun _ _ _ => none
  MarshalIndent := sampleMarshalIndent

/-- The world of `sampleWorld` in which the working directory cannot be determined. -/
def noCwdWorld : World :=
  { sampleWorld "null" with Getwd := fun _ => .error (.base "getwd: no such file or directory") }

/-! ## Vocabulary of the statements about `processMap` -/

/-- The dimension record of a layer, `{ width, height, num_land_tiles }`. -/
def layerDims (l : MapInfo) : GoValue :=
  .map [("width", .int l.Width), ("height", .int l.Height),
        ("num_land_tiles", .int l.NumLandTiles)]

/-- The input root of the specification: `<cwd>/assets/test_maps` for a test map,
`<cwd>/assets/maps` otherwise. -/
def inputRoot (cwd : String) (isTest : Bool) : String :=
  if isTest then Join [cwd, "assets", "test_maps"] else Join [cwd, "assets", "maps"]

/-- The output root of the specification: `<cwd>/../tests/testdata/maps` for a test map,
`<cwd>/../resources/maps` otherwise. -/
def outputRoot (cwd : String) (isTest : Bool) : String :=
  if isTest then Join [cwd, "..", "tests", "testdata", "maps"]
  else Join [cwd, "..", "resources", "maps"]

/-- The outcome `o` is a returned error that wraps `u` with a context message in which
the text `s` occurs. -/
def WrapsNaming (o : Outcome) (u : GoError) (s : String) : Prop :=
  ∃ ctx, o = .returned (some (Errorf ctx u)) ∧ s.data <:+: ctx.data

/-- The files an invocation wrote, with their contents, in the order of the writes. -/
def filesWritten : List Event → List (String × Bytes)
  | [] => []
  | .writeFile path data _ :: es => (path, data) :: filesWritten es
  | .readFile _ :: es => filesWritten es
  | .generate _ :: es => filesWritten es
  | .mkdirAll _ _ :: es => filesWritten es

/-- The arguments of the calls of the generator an invocation made, in order. -/
def generatorCalls : List Event → List GeneratorArgs
  | [] => []
  | .generate args :: es => args :: generatorCalls es
  | .readFile _ :: es => generatorCalls es
  | .writeFile _ _ _ :: es => generatorCalls es
  | .mkdirAll _ _ :: es => generatorCalls es

/-! ## Vocabulary of the statements about the built-in catalog -/

/-- The directory `processMap` creates for a catalog item in working directory `cwd`. -/
def mapDir (cwd : String) (mi : MapItem) : String :=
  Join [outputRoot cwd mi.IsTest, mi.Name]

/-- A path component that `Clean` keeps as it is: not empty, not `.`, not `..`, and
without separator. -/
def simpleName (n : List Char) : Prop :=
  n ≠ [] ∧ n ≠ ['.'] ∧ n ≠ ['.', '.'] ∧ '/' ∉ n

instance (n : List Char) : Decidable (simpleName n) := by
  unfold simpleName; infer_instance

/-- The end of the output directory of a catalog item, below the directory that the
working directory determines. -/
def dirTail (mi : MapItem) : List Char :=
  (if mi.IsTest then "tests/testdata/maps/".data else "resources/maps/".data) ++ mi.Name.data

/-! ## `loadTerrainMaps`

The function starts one goroutine per catalog item, waits for all of them on a
`sync.WaitGroup`, closes the error channel and returns the first error received from it.
It is modelled as a transition system: a state of the main goroutine, of the started
goroutines, of the wait group and of the channel, and a step function that advances the
goroutine a scheduler picks.  Every interleaving is a list of scheduler choices. -/

namespace loadTerrainMaps

/-- Where a goroutine `go func(mi MapItem) { ... }(mapItem)` stands. -/
inductive Phase where
  /-- Started; `processMap(mi.Name, mi.IsTest)` not yet called. -/
  | ready
  /-- Inside `processMap`. -/
  | running
  /-- `processMap` returned `err`; `if err != nil { errChan <- err }` comes next. -/
  | returned (err : Option GoError)
  /-- Past the send; the deferred `wg.Done()` comes next. -/
  | exiting (err : Option GoError)
  /-- Past `wg.Done()`: the goroutine has ended, its `processMap` returned `err`. -/
  | done (err : Option GoError)
  /-- Its `processMap` panicked with `msg`; the deferred `wg.Done()` comes next. -/
  | panicking (msg : String)
  /-- Past the deferred `wg.Done()` of a panicking goroutine; the runtime ends the
  program next. -/
  | panicked (msg : String)
deriving DecidableEq

/-- Where the goroutine that runs `loadTerrainMaps` stands. -/
inductive Main where
  /-- In `for _, mapItem := range maps`, with `rest` still to be dispatched. -/
  | spawning (rest : List MapItem)
  /-- At `wg.Wait()`. -/
  | waiting
  /-- At `close(errChan)`. -/
  | closing
  /-- In `for err := range errChan`. -/
  | collecting
  /-- Returned `err` (`none` is `nil`). -/
  | returned (err : Option GoError)
deriving DecidableEq

/-- The state of an execution of `loadTerrainMaps`. -/
structure State where
  main : Main
  /-- Counter of `wg`. -/
  wg : Nat
  /-- Contents of the buffered channel `errChan`, oldest first; a Go `error` may be nil. -/
  errChan : List (Option GoError)
  /-- Capacity of `errChan`. -/
  cap : Nat
  /-- Whether `errChan` is closed. -/
  closed : Bool
  /-- The goroutines started so far, in the order of their start, with their argument. -/
  workers : List (MapItem × Phase)
  /-- The arguments of the calls of `processMap` made so far, in the order of the calls. -/
  calls : List MapItem
  /-- The message of the panic that ended the process, if one did. -/
  panic : Option String
deriving DecidableEq

/-- A scheduler choice: the main goroutine, or the goroutine with index `i`, takes its
next step; `ret i w` is the end of `processMap` in goroutine `i`, `w` being the world
that invocation ran against; `crash i` is the runtime ending the program after the
panicking goroutine `i` has run its deferred call. -/
inductive Action where
  | main
  | call (i : Nat)
  | ret (i : Nat) (w : World)
  | send (i : Nat)
  | done (i : Nat)
  | crash (i : Nat)

/-- The state after `var wg sync.WaitGroup; errChan := make(chan error, len(maps))`,
`catalog` being the value of the global `maps`. -/
def init (catalog : List MapItem) : State :=
  { main := .spawning catalog, wg := 0, errChan := [], cap := catalog.length,
    closed := false, workers := [], calls := [], panic := none }

/-- One step; `none` when the chosen goroutine cannot move (it is blocked or has ended,
or the process has ended). -/
def step (s : State) (a : Action) : Option State :=
  match s.panic with
  | some _ => none
  | none =>
  match a with
  | .main =>
    match s.main with
    | .spawning (mi :: rest) =>
      -- wg.Add(1); go func(mi MapItem) {...}(mapItem)
      some { s with main := .spawning rest, wg := s.wg + 1,
                    workers := s.workers ++ [(mi, .ready)] }
    | .spawning [] => some { s with main := .waiting }
    | .waiting =>
      -- wg.Wait() returns when the counter is zero
      if s.wg = 0 then some { s with main := .closing } else none
    | .closing => some { s with main := .collecting, closed := true }
    | .collecting =>
      -- for err := range errChan { if err != nil { return err } }; return nil
      match s.errChan with
      | some err :: rest => some { s with main := .returned (some err), errChan := rest }
      | none :: rest => some { s with errChan := rest }
      | [] => if s.closed then some { s with main := .returned none } else none
    | .returned _ => none
  | .call i =>
    match s.workers[i]? with
    | some (mi, .ready) =>
      some { s with workers := s.workers.set i (mi, .running), calls := s.calls ++ [mi] }
    | _ => none
  | .ret i w =>
    match s.workers[i]? with
    | some (mi, .running) =>
      match (processMap w mi.Name mi.IsTest).1 with
      | .returned err => some { s with workers := s.workers.set i (mi, .returned err) }
      | .panicked msg => some { s with workers := s.workers.set i (mi, .panicking msg) }
    | _ => none
  | .send i =>
    match s.workers[i]? with
    | some (mi, .returned none) =>
      some { s with workers := s.workers.set i (mi, .exiting none) }
    | some (mi, .returned (some err)) =>
      if s.closed then some { s with panic := some "send on closed channel" }
      else if s.errChan.length < s.cap then
        some { s with errChan := s.errChan ++ [some err],
                      workers := s.workers.set i (mi, .exiting (some err)) }
      else none
    | _ => none
  | .done i =>
    match s.workers[i]? with
    | some (mi, .exiting err) =>
      if s.wg = 0 then some { s with panic := some "sync: negative WaitGroup counter" }
      else some { s with wg := s.wg - 1, workers := s.workers.set i (mi, .done err) }
    | some (mi, .panicking msg) =>
      if s.wg = 0 then some { s with panic := some "sync: negative WaitGroup counter" }
      else some { s with wg := s.wg - 1, workers := s.workers.set i (mi, .panicked msg) }
    | _ => none
  | .crash i =>
    match s.workers[i]? with
    | some (_, .panicked msg) => some { s with panic := some msg }
    | _ => none

/-- The state after the scheduler choices `acts`, if each of them was possible. -/
def run (s : State) : List Action → Option State
  | [] => some s
  | a :: acts =>
    match step s a with
    | none => none
    | some s' => run s' acts

/-- The items the loop of the main goroutine has still to dispatch. -/
def pending : Main → List MapItem
  | .spawning rest => rest
  | _ => []

/-- The sum of `g` over the goroutines. -/
def sumOver (g : MapItem × Phase → Nat) (ws : List (MapItem × Phase)) : Nat :=
  (ws.map g).sum

/-- 1 for a goroutine that has not yet executed `wg.Done()`. -/
def live : MapItem × Phase → Nat
  | (_, .done _) => 0
  | (_, .panicked _) => 0
  | _ => 1

/-- 1 for a goroutine that has sent an error to the channel. -/
def sent : MapItem × Phase → Nat
  | (_, .exiting (some _)) => 1
  | (_, .done (some _)) => 1
  | _ => 0

/-- 1 for a goroutine with argument `item` that has called `processMap`. -/
def called (item : MapItem) : MapItem × Phase → Nat
  | (_, .ready) => 0
  | (mi, _) => if mi = item then 1 else 0

/-- The steps a goroutine can still take, a send counting double. -/
def stepsLeft : MapItem × Phase → Nat
  | (_, .ready) => 5
  | (_, .running) => 4
  | (_, .returned _) => 3
  | (_, .exiting _) => 1
  | (_, .done _) => 0
  | (_, .panicking _) => 1
  | (_, .panicked _) => 0

/-- The steps the main goroutine can still take when nothing is left to dispatch. -/
def mainSteps : Main → Nat
  | .spawning _ => 4
  | .waiting => 3
  | .closing => 2
  | .collecting => 1
  | .returned _ => 0

/-- A bound on the number of steps an execution can still take. -/
def fuel (s : State) : Nat :=
  mainSteps s.main + 6 * (pending s.main).length + sumOver stepsLeft s.workers
    + s.errChan.length + (if s.panic = none then 1 else 0)

/-- Whether the channel is still open: the main goroutine has not passed `close(errChan)`. -/
def chanOpen : Main → Bool
  | .spawning _ => true
  | .waiting => true
  | .closing => true
  | .collecting => false
  | .returned _ => false

/-- Whether the main goroutine has passed `wg.Wait()`. -/
def joined : Main → Bool
  | .spawning _ => false
  | .waiting => false
  | .closing => true
  | .collecting => true
  | .returned _ => true

/-- The error a goroutine has sent to the channel, if it has sent one. -/
def sentErr : MapItem × Phase → Option GoError
  | (_, .exiting err) => err
  | (_, .done err) => err
  | _ => none

/-- The message of the panic of a goroutine that the runtime is about to end the program
for. -/
def panicMsg : MapItem × Phase → Option String
  | (_, .panicked msg) => some msg
  | _ => none

/-- How the `processMap` of a goroutine ended, once it has. -/
def outcomeOf : Phase → Option Outcome
  | .ready => none
  | .running => none
  | .returned err => some (.returned err)
  | .exiting err => some (.returned err)
  | .done err => some (.returned err)
  | .panicking msg => some (.panicked msg)
  | .panicked msg => some (.panicked msg)

/-- The outcome recorded for a goroutine is the outcome of `processMap` on its item in
the world of a `ret` choice of the scheduler for that goroutine. -/
def Traced (hist : List Action) (s : State) : Prop :=
  ∀ (i : Nat) (mi : MapItem) (ph : Phase) (o : Outcome),
    s.workers[i]? = some (mi, ph) → outcomeOf ph = some o →
    ∃ w, Action.ret i w ∈ hist ∧ (processMap w mi.Name mi.IsTest).1 = o

/-- What holds in every state reachable from `init catalog`. -/
structure Inv (catalog : List MapItem) (s : State) : Prop where
  cap : s.cap = catalog.length
  items : s.workers.map Prod.fst ++ pending s.main = catalog
  wg : s.wg = sumOver live s.workers
  chanLen : s.errChan.length ≤ sumOver sent s.workers
  closed : s.closed = !chanOpen s.main
  allDone : joined s.main = true → ∀ p ∈ s.workers, live p = 0
  chanSound : ∀ x ∈ s.errChan, ∃ e, x = some e ∧ ∃ p ∈ s.workers, sentErr p = some e
  chanComplete : (∀ r, s.main ≠ .returned r) →
    ∀ p ∈ s.workers, ∀ e, sentErr p = some e → some e ∈ s.errChan
  ret : ∀ r, s.main = .returned r →
    (r = none ↔ ∀ p ∈ s.workers, sentErr p = none) ∧
    (∀ e, r = some e → ∃ mi, (mi, Phase.done (some e)) ∈ s.workers)
  calls : ∀ item, s.calls.count item = sumOver (called item) s.workers
  panicSome : ∀ msg, s.panic = some msg → ∃ p ∈ s.workers, panicMsg p = some msg

/-- A sample catalog: one map whose inputs `sampleWorld` holds and one it does not. -/
def sampleCatalog : List MapItem :=
  [⟨"europe", false⟩, ⟨"asia", false⟩]

/-- A sample interleaving for `sampleCatalog`: both goroutines are started, the second
one runs first, and the main goroutine goes on once both have ended. -/
def sampleSchedule : List Action :=
  [ .main, .main, .main, .call 1, .call 0, .ret 1 (sampleWorld emptyInfo),
    .ret 0 (sampleWorld emptyInfo), .send 1, .send 0, .done 0, .done 1,
    .main, .main, .main ]

/-- The error of `processMap "asia" false` in `sampleWorld`. -/
def sampleError : GoError :=
  Errorf "failed to read map file /repo/map-generator/assets/maps/asia/image.png: "
    (.base "open /repo/map-generator/assets/maps/asia/image.png: no such file or directory")

/-- The state `sampleSchedule` ends in. -/
def sampleFinal : State :=
  { main := .returned (some sampleError), wg := 0, errChan := [], cap := 2, closed := true,
    workers := [(⟨"europe", false⟩, .done none), (⟨"asia", false⟩, .done (some sampleError))],
    calls := [⟨"asia", false⟩, ⟨"europe", false⟩], panic := none }

/-- An interleaving on the catalog `[europe]` in a world whose `info.json` is the JSON
`null`: `processMap` panics, the deferred `wg.Done()` runs, the main goroutine goes on to
its return, and the runtime ends the program. -/
def panicSchedule : List Action :=
  [ .main, .main, .call 0, .ret 0 (sampleWorld "null"), .done 0, .main, .main, .main,
    .crash 0 ]

/-- The state `panicSchedule` ends in. -/
def panicFinal : State :=
  { main := .returned none, wg := 0, errChan := [], cap := 1, closed := true,
    workers := [(⟨"europe", false⟩, .panicked "assignment to entry in nil map")],
    calls := [⟨"europe", false⟩], panic := some "assignment to entry in nil map" }

end loadTerrainMaps

/-! ## Theorems: the `--maps` override -/

theorem parsePart_eq (acc : List MapItem) (p : String) :
    parsePart acc p =
      if TrimSpace p = "" then acc else acc ++ [specItem (TrimSpace p)] := by
  unfold parsePart specItem TrimPrefix
  by_cases h : TrimSpace p = ""
  · simp [h]
  · by_cases hp : HasPrefix (TrimSpace p) "test:" = true
    · simp [h, hp]
    · simp [h, hp]

theorem foldl_parsePart (parts : List String) (acc : List MapItem) :
    parts.foldl parsePart acc =
      acc ++ (((parts.map TrimSpace).filter (fun e => e ≠ "")).map specItem) := by
  induction parts generalizing acc with
  | nil => simp
  | cons p ps ih =>
    rw [List.foldl_cons, ih, parsePart_eq]
    by_cases h : TrimSpace p = ""
    · simp [h]
    · simp [h]

theorem newMaps_eq_specOverride (v : String) : newMaps v = specOverride v := by
  unfold newMaps specOverride
  rw [foldl_parsePart]
  simp

theorem specOverride_eq_nil_iff (v : String) :
    specOverride v = [] ↔ ∀ e ∈ Split v ',', TrimSpace e = "" := by
  unfold specOverride
  simp [List.filter_eq_nil_iff]

/-- C5: when the `--maps` value has at least one element that is non-empty after
trimming, the catalog handed to the driver is exactly the override list of the
specification (split on commas, trim, drop empties, map `test:` elements to test items),
which is non-empty, so the built-in list is replaced; the two literal examples hold. -/
theorem mainMaps_override (v : String)
    (h : ∃ e ∈ Split v ',', TrimSpace e ≠ "") :
    mainMaps v = specOverride v ∧ specOverride v ≠ [] ∧
    mainMaps "test:foo" = [⟨"foo", true⟩] ∧
    mainMaps "world,europe,test:plains" =
      [⟨"world", false⟩, ⟨"europe", false⟩, ⟨"plains", true⟩] := by
  have hne : specOverride v ≠ [] := by
    intro hnil
    obtain ⟨e, he, hne⟩ := h
    exact hne ((specOverride_eq_nil_iff v).1 hnil e he)
  have hv : v ≠ "" := by
    rintro rfl
    obtain ⟨e, he, hne⟩ := h
    revert e
    decide
  refine ⟨?_, hne, by decide, by decide⟩
  unfold mainMaps
  rw [if_pos hv, newMaps_eq_specOverride]
  have hlen : (specOverride v).length > 0 := List.length_pos.2 hne
  rw [if_pos hlen]

theorem mainMaps_override_witness :
    (∃ e ∈ Split "world, ,test:plains" ',', TrimSpace e ≠ "") ∧
    mainMaps "world, ,test:plains" = [⟨"world", false⟩, ⟨"plains", true⟩] :=
  ⟨by decide,
   (mainMaps_override "world, ,test:plains" (by decide)).1.trans (by decide)⟩

/-- C6: when the `--maps` value is empty or every one of its comma-separated elements
is empty after trimming, the catalog handed to the driver is the built-in catalog,
unchanged in content and order. -/
theorem mainMaps_default (v : String)
    (h : ∀ e ∈ Split v ',', TrimSpace e = "") :
    mainMaps v = maps := by
  unfold mainMaps
  by_cases hv : v ≠ ""
  · rw [if_pos hv, newMaps_eq_specOverride, (specOverride_eq_nil_iff v).2 h]
    simp
  · rw [if_neg hv]

theorem mainMaps_default_witness :
    (∀ e ∈ Split " , , " ',', TrimSpace e = "") ∧ mainMaps " , , " = maps ∧
    (∀ e ∈ Split "" ',', TrimSpace e = "") ∧ mainMaps "" = maps :=
  ⟨by decide, mainMaps_default " , , " (by decide), by decide, mainMaps_default "" (by decide)⟩

/-- C9 (the code at the failing inputs): the element `test:` is parsed to an item whose
name is empty, and `test: foo` to an item whose name starts with a blank. -/
theorem newMaps_test_prefix_name :
    newMaps "test:" = [⟨"", true⟩] ∧ newMaps "test: foo" = [⟨" foo", true⟩] ∧
    mainMaps "test:" = [⟨"", true⟩] ∧ mainMaps "a,test: foo" = [⟨"a", false⟩, ⟨" foo", true⟩] := by
  decide

/-! ## Theorems: `processMap` -/

theorem find?_filter_key_ne (m : GoMap) (k k' : String) (hk : k' ≠ k) :
    (m.filter (fun kv => kv.1 ≠ k)).find? (fun kv => kv.1 = k') =
      m.find? (fun kv => kv.1 = k') := by
  induction m with
  | nil => rfl
  | cons kv rest ih =>
    by_cases h1 : kv.1 = k
    · have h2 : ¬ kv.1 = k' := by rw [h1]; exact fun h => hk h.symm
      rw [List.filter_cons_of_neg (by simpa using h1), List.find?_cons_of_neg _ (by simpa using h2)]
      exact ih
    · rw [List.filter_cons_of_pos (by simpa using h1)]
      by_cases h2 : kv.1 = k'
      · rw [List.find?_cons_of_pos _ (by simpa using h2), List.find?_cons_of_pos _ (by simpa using h2)]
      · rw [List.find?_cons_of_neg _ (by simpa using h2), List.find?_cons_of_neg _ (by simpa using h2)]
        exact ih

theorem mapIndex_mapAssign (m : GoMap) (k k' : String) (v : GoValue) :
    mapIndex (mapAssign m k v) k' = if k' = k then some v else mapIndex m k' := by
  unfold mapIndex mapAssign
  by_cases hk : k' = k
  · subst hk
    simp
  · have hk' : ¬ k = k' := fun h => hk h.symm
    rw [List.find?_cons_of_neg _ (by simpa using hk'), find?_filter_key_ne m k k' hk, if_neg hk]

/-- A successful invocation, spelled out: every call it made succeeded, `info.json`
decoded to a non-nil map, and the calls are the two reads, one call of the generator,
the creation of the output directory and the five writes. -/
theorem processMap_success (w : World) (name : String) (isTest : Bool)
    (h : (processMap w name isTest).1 = .returned none) :
    ∃ cwdOut cwdIn img raw input result bytes,
      w.Getwd 0 = .ok cwdOut ∧ w.Getwd 1 = .ok cwdIn ∧
      w.ReadFile (Join [inputRoot cwdIn isTest, name, "image.png"]) = .ok img ∧
      w.ReadFile (Join [inputRoot cwdIn isTest, name, "info.json"]) = .ok raw ∧
      Unmarshal w raw = .ok (some input) ∧
      w.GenerateMap { ImageBuffer := img, RemoveSmall := !isTest, Name := name } = .ok result ∧
      w.MarshalIndent
        (mapAssign (mapAssign (mapAssign input "map" (layerDims result.Map))
          "map4x" (layerDims result.Map4x)) "map16x" (layerDims result.Map16x)) "" "  "
        = .ok bytes ∧
      (processMap w name isTest).2 =
        [ .readFile (Join [inputRoot cwdIn isTest, name, "image.png"]),
          .readFile (Join [inputRoot cwdIn isTest, name, "info.json"]),
          .generate { ImageBuffer := img, RemoveSmall := !isTest, Name := name },
          .mkdirAll (Join [outputRoot cwdOut isTest, name]) 0o755,
          .writeFile (Join [Join [outputRoot cwdOut isTest, name], "map.bin"])
            result.Map.Data 0o644,
          .writeFile (Join [Join [outputRoot cwdOut isTest, name], "map4x.bin"])
            result.Map4x.Data 0o644,
          .writeFile (Join [Join [outputRoot cwdOut isTest, name], "map16x.bin"])
            result.Map16x.Data 0o644,
          .writeFile (Join [Join [outputRoot cwdOut isTest, name], "thumbnail.webp"])
            result.Thumbnail 0o644,
          .writeFile (Join [Join [outputRoot cwdOut isTest, name], "manifest.json"])
            bytes 0o644 ] := by
  unfold processMap at h
  split at h
  · simp at h
  rename_i outDir hOut
  split at h
  · simp at h
  rename_i inDir hIn
  simp only [] at h
  split at h
  · simp at h
  rename_i img hImg
  split at h
  · simp at h
  rename_i raw hRaw
  split at h
  · simp at h
  rename_i manifest hMan
  split at h
  · simp at h
  rename_i result hGen
  split at h
  · simp at h
  rename_i input
  split at h
  · simp at h
  rename_i hMk
  split at h
  · simp at h
  rename_i hW1
  split at h
  · simp at h
  rename_i hW2
  split at h
  · simp at h
  rename_i hW3
  split at h
  · simp at h
  rename_i hW4
  split at h
  · simp at h
  rename_i bytes hMar
  split at h
  · simp at h
  rename_i hW5
  obtain ⟨cwdOut, h0, rfl⟩ : ∃ c, w.Getwd 0 = .ok c ∧ outDir = outputRoot c isTest := by
    unfold outputMapDir at hOut
    split at hOut
    · simp at hOut
    · rename_i c hc
      refine ⟨c, hc, ?_⟩
      unfold outputRoot
      split at hOut <;> simp_all
  obtain ⟨cwdIn, h1, rfl⟩ : ∃ c, w.Getwd 1 = .ok c ∧ inDir = inputRoot c isTest := by
    unfold inputMapDir at hIn
    split at hIn
    · simp at hIn
    · rename_i c hc
      refine ⟨c, hc, ?_⟩
      unfold inputRoot
      split at hIn <;> simp_all
  refine ⟨cwdOut, cwdIn, img, raw, input, result, bytes, h0, h1, hImg, hRaw, hMan, hGen,
    hMar, ?_⟩
  unfold processMap
  simp only [hOut, hIn, hImg, hRaw, hMan, hGen, hMk, hW1, hW2, hW3, hW4, hMar, hW5]
  rfl

theorem Unmarshal_ok_some (w : World) (raw : Bytes) (input : GoMap)
    (h : Unmarshal w raw = .ok (some input)) : w.jsonDecode raw = .ok (.map input) := by
  unfold Unmarshal at h
  split at h <;> simp_all

/-- C1 (counterexample): `info.json` holds `{"big": 9007199254740993}`; the number is
decoded to the nearest `float64`, which is 9007199254740992, `processMap` succeeds, and the
`manifest.json` it writes holds 9007199254740992 at `big`: the input value occurs nowhere
in the output. -/
theorem processMap_rounds_input_number :
    (sampleWorld bigInfo).ReadFile "/repo/map-generator/assets/maps/europe/info.json"
      = .ok (asciiBytes "\x7b\"big\": 9007199254740993\x7d") ∧
    float64OfNat 9007199254740993 = 0x4340000000000000 ∧
    natOfFloat64 0x4340000000000000 = some 9007199254740992 ∧
    Unmarshal (sampleWorld bigInfo) (asciiBytes bigInfo)
      = .ok (some [("big", .float64 0x4340000000000000)]) ∧
    (processMap (sampleWorld bigInfo) "europe" false).1 = .returned none ∧
    ("/repo/resources/maps/europe/manifest.json", asciiBytes bigManifest)
      ∈ filesWritten (processMap (sampleWorld bigInfo) "europe" false).2 ∧
    asciiBytes "\"big\": 9007199254740992," <:+: asciiBytes bigManifest ∧
    ¬ asciiBytes "9007199254740993" <:+: asciiBytes bigManifest := by
  refine ⟨rfl, by decide, by decide, rfl, by decide, by decide, by decide, by decide⟩

/-- C1 (amended): whenever `processMap` succeeds, `info.json` was decoded by
`json.Unmarshal` to a JSON object, the Go map `input`, and the `manifest.json` it wrote is
the `json.MarshalIndent` encoding of a Go map `output` in which every key of `input` is
present and every key of `input` other than `map`, `map4x` and `map16x` holds the decoded
value it has in `input` (for a JSON number, the `float64` it was decoded to). -/
theorem processMap_preserves_input_keys (w : World) (name : String) (isTest : Bool)
    (h : (processMap w name isTest).1 = .returned none) :
    ∃ cwdOut cwdIn raw input output bytes,
      w.Getwd 0 = .ok cwdOut ∧ w.Getwd 1 = .ok cwdIn ∧
      w.ReadFile (Join [inputRoot cwdIn isTest, name, "info.json"]) = .ok raw ∧
      w.jsonDecode raw = .ok (.map input) ∧
      w.MarshalIndent output "" "  " = .ok bytes ∧
      (Join [Join [outputRoot cwdOut isTest, name], "manifest.json"], bytes)
        ∈ filesWritten (processMap w name isTest).2 ∧
      ∀ k v, mapIndex input k = some v →
        (mapIndex output k).isSome = true ∧
        (k ∉ ["map", "map4x", "map16x"] → mapIndex output k = some v) := by
  obtain ⟨cwdOut, cwdIn, img, raw, input, result, bytes, h0, h1, -, hRaw, hMan, -, hMar, hTr⟩ :=
    processMap_success w name isTest h
  refine ⟨cwdOut, cwdIn, raw, input, _, bytes, h0, h1, hRaw, Unmarshal_ok_some w raw input hMan,
    hMar, ?_, ?_⟩
  · rw [hTr]
    simp [filesWritten]
  · intro k v hkv
    simp only [mapIndex_mapAssign]
    constructor
    · split
      · rfl
      · split
        · rfl
        · split
          · rfl
          · rw [hkv]; rfl
    · intro hk
      simp only [List.mem_cons, List.mem_singleton, List.not_mem_nil, or_false, not_or] at hk
      rw [if_neg hk.2.2, if_neg hk.2.1, if_neg hk.1, hkv]

theorem processMap_preserves_input_keys_witness :
    (processMap (sampleWorld tilesInfo)
        "europe" false).1 = .returned none ∧
    ∃ cwdOut cwdIn raw input output bytes,
      (sampleWorld tilesInfo).Getwd 0
        = .ok cwdOut ∧
      (sampleWorld tilesInfo).Getwd 1
        = .ok cwdIn ∧
      (sampleWorld tilesInfo).ReadFile
        (Join [inputRoot cwdIn false, "europe", "info.json"]) = .ok raw ∧
      (sampleWorld tilesInfo).jsonDecode raw
        = .ok (.map input) ∧
      (sampleWorld tilesInfo).MarshalIndent
        output "" "  " = .ok bytes ∧
      (Join [Join [outputRoot cwdOut false, "europe"], "manifest.json"], bytes)
        ∈ filesWritten (processMap
            (sampleWorld tilesInfo)
            "europe" false).2 ∧
      ∀ k v, mapIndex input k = some v →
        (mapIndex output k).isSome = true ∧
        (k ∉ ["map", "map4x", "map16x"] → mapIndex output k = some v) :=
  ⟨by decide,
   processMap_preserves_input_keys
     (sampleWorld tilesInfo) "europe" false
     (by decide)⟩

/-- C2: whenever `processMap` succeeds, whatever the input manifest held at `map`,
`map4x` and `map16x`, the map serialised into `manifest.json` holds at each of these keys
an object with exactly the fields `width`, `height`, `num_land_tiles`, equal to `Width`,
`Height`, `NumLandTiles` of the layer `Map`, `Map4x`, `Map16x` of the result the generator
returned. -/
theorem processMap_writes_layer_dims (w : World) (name : String) (isTest : Bool)
    (h : (processMap w name isTest).1 = .returned none) :
    ∃ cwdOut cwdIn img result output bytes,
      w.Getwd 0 = .ok cwdOut ∧ w.Getwd 1 = .ok cwdIn ∧
      w.ReadFile (Join [inputRoot cwdIn isTest, name, "image.png"]) = .ok img ∧
      w.GenerateMap { ImageBuffer := img, RemoveSmall := !isTest, Name := name } = .ok result ∧
      w.MarshalIndent output "" "  " = .ok bytes ∧
      (Join [Join [outputRoot cwdOut isTest, name], "manifest.json"], bytes)
        ∈ filesWritten (processMap w name isTest).2 ∧
      mapIndex output "map" = some (.map [
        ("width", .int result.Map.Width), ("height", .int result.Map.Height),
        ("num_land_tiles", .int result.Map.NumLandTiles)]) ∧
      mapIndex output "map4x" = some (.map [
        ("width", .int result.Map4x.Width), ("height", .int result.Map4x.Height),
        ("num_land_tiles", .int result.Map4x.NumLandTiles)]) ∧
      mapIndex output "map16x" = some (.map [
        ("width", .int result.Map16x.Width), ("height", .int result.Map16x.Height),
        ("num_land_tiles", .int result.Map16x.NumLandTiles)]) := by
  obtain ⟨cwdOut, cwdIn, img, raw, input, result, bytes, h0, h1, hImg, -, -, hGen, hMar, hTr⟩ :=
    processMap_success w name isTest h
  refine ⟨cwdOut, cwdIn, img, result, _, bytes, h0, h1, hImg, hGen, hMar, ?_, ?_, ?_, ?_⟩
  · rw [hTr]
    simp [filesWritten]
  · rw [mapIndex_mapAssign, if_neg (by decide), mapIndex_mapAssign, if_neg (by decide),
      mapIndex_mapAssign, if_pos rfl]
    rfl
  · rw [mapIndex_mapAssign, if_neg (by decide), mapIndex_mapAssign, if_pos rfl]
    rfl
  · rw [mapIndex_mapAssign, if_pos rfl]
    rfl

theorem processMap_writes_layer_dims_witness :
    (processMap (sampleWorld staleInfo) "europe" false).1
      = .returned none ∧
    ∃ cwdOut cwdIn img result output bytes,
      (sampleWorld staleInfo).Getwd 0 = .ok cwdOut ∧
      (sampleWorld staleInfo).Getwd 1 = .ok cwdIn ∧
      (sampleWorld staleInfo).ReadFile
        (Join [inputRoot cwdIn false, "europe", "image.png"]) = .ok img ∧
      (sampleWorld staleInfo).GenerateMap
        { ImageBuffer := img, RemoveSmall := !false, Name := "europe" } = .ok result ∧
      (sampleWorld staleInfo).MarshalIndent output "" "  "
        = .ok bytes ∧
      (Join [Join [outputRoot cwdOut false, "europe"], "manifest.json"], bytes)
        ∈ filesWritten
            (processMap (sampleWorld staleInfo) "europe" false).2 ∧
      mapIndex output "map" = some (.map [
        ("width", .int result.Map.Width), ("height", .int result.Map.Height),
        ("num_land_tiles", .int result.Map.NumLandTiles)]) ∧
      mapIndex output "map4x" = some (.map [
        ("width", .int result.Map4x.Width), ("height", .int result.Map4x.Height),
        ("num_land_tiles", .int result.Map4x.NumLandTiles)]) ∧
      mapIndex output "map16x" = some (.map [
        ("width", .int result.Map16x.Width), ("height", .int result.Map16x.Height),
        ("num_land_tiles", .int result.Map16x.NumLandTiles)]) :=
  ⟨by decide,
   processMap_writes_layer_dims (sampleWorld staleInfo) "europe" false
     (by decide)⟩

/-- C4: whenever `processMap name isTest` succeeds in working directory `cwd`, it called
the generator exactly once, with the contents of `<input root>/<name>/image.png`,
`RemoveSmall = !isTest` and `Name = name`, and the files it wrote are exactly `map.bin`,
`map4x.bin`, `map16x.bin`, `thumbnail.webp` and `manifest.json` of the directory
`<output root>/<name>`, the first four holding `Map.Data`, `Map4x.Data`, `Map16x.Data`
and `Thumbnail` of the result the generator returned. -/
theorem processMap_writes_five_files (w : World) (name : String) (isTest : Bool) (cwd : String)
    (hcwd0 : w.Getwd 0 = .ok cwd) (hcwd1 : w.Getwd 1 = .ok cwd)
    (h : (processMap w name isTest).1 = .returned none) :
    ∃ img result manifest,
      w.ReadFile (Join [inputRoot cwd isTest, name, "image.png"]) = .ok img ∧
      w.GenerateMap { ImageBuffer := img, RemoveSmall := !isTest, Name := name } = .ok result ∧
      generatorCalls (processMap w name isTest).2 =
        [{ ImageBuffer := img, RemoveSmall := !isTest, Name := name }] ∧
      filesWritten (processMap w name isTest).2 =
        [ (Join [Join [outputRoot cwd isTest, name], "map.bin"], result.Map.Data),
          (Join [Join [outputRoot cwd isTest, name], "map4x.bin"], result.Map4x.Data),
          (Join [Join [outputRoot cwd isTest, name], "map16x.bin"], result.Map16x.Data),
          (Join [Join [outputRoot cwd isTest, name], "thumbnail.webp"], result.Thumbnail),
          (Join [Join [outputRoot cwd isTest, name], "manifest.json"], manifest) ] := by
  obtain ⟨cwdOut, cwdIn, img, raw, input, result, bytes, h0, h1, hImg, -, -, hGen, -, hTr⟩ :=
    processMap_success w name isTest h
  obtain rfl : cwd = cwdOut := by rw [hcwd0] at h0; exact Except.ok.inj h0
  obtain rfl : cwd = cwdIn := by rw [hcwd1] at h1; exact Except.ok.inj h1
  refine ⟨img, result, bytes, hImg, hGen, ?_, ?_⟩
  · rw [hTr]; rfl
  · rw [hTr]; rfl

theorem processMap_writes_five_files_witness :
    (sampleWorld emptyInfo).Getwd 0 = .ok "/repo/map-generator" ∧
    (sampleWorld emptyInfo).Getwd 1 = .ok "/repo/map-generator" ∧
    (processMap (sampleWorld emptyInfo) "europe" false).1 = .returned none ∧
    ∃ img result manifest,
      (sampleWorld emptyInfo).ReadFile
        (Join [inputRoot "/repo/map-generator" false, "europe", "image.png"]) = .ok img ∧
      (sampleWorld emptyInfo).GenerateMap
        { ImageBuffer := img, RemoveSmall := !false, Name := "europe" } = .ok result ∧
      generatorCalls (processMap (sampleWorld emptyInfo) "europe" false).2 =
        [{ ImageBuffer := img, RemoveSmall := !false, Name := "europe" }] ∧
      filesWritten (processMap (sampleWorld emptyInfo) "europe" false).2 =
        [ (Join [Join [outputRoot "/repo/map-generator" false, "europe"], "map.bin"],
            result.Map.Data),
          (Join [Join [outputRoot "/repo/map-generator" false, "europe"], "map4x.bin"],
            result.Map4x.Data),
          (Join [Join [outputRoot "/repo/map-generator" false, "europe"], "map16x.bin"],
            result.Map16x.Data),
          (Join [Join [outputRoot "/repo/map-generator" false, "europe"], "thumbnail.webp"],
            result.Thumbnail),
          (Join [Join [outputRoot "/repo/map-generator" false, "europe"], "manifest.json"],
            manifest) ] :=
  ⟨rfl, rfl, by decide,
   processMap_writes_five_files (sampleWorld emptyInfo) "europe" false "/repo/map-generator"
     rfl rfl (by decide)⟩

/-- C3 (the code at the failing input): with `info.json` holding the JSON document
`null`, `Unmarshal` reports no error and leaves the map nil, `processMap` calls the
generator and then panics on the assignment `manifest["map"] = ...`. -/
theorem processMap_null_root_panics :
    Unmarshal (sampleWorld "null") (asciiBytes "null") = .ok none ∧
    processMap (sampleWorld "null") "europe" false =
      (.panicked "assignment to entry in nil map",
       [ .readFile "/repo/map-generator/assets/maps/europe/image.png",
         .readFile "/repo/map-generator/assets/maps/europe/info.json",
         .generate { ImageBuffer := [0x89, 0x50, 0x4E, 0x47], RemoveSmall := true,
                     Name := "europe" } ]) := by
  constructor
  · rfl
  · decide

/-- The null root in any world: when `info.json` decodes to the JSON `null`, `processMap`
calls the generator; it panics when the generator succeeds and returns the error of the
generator otherwise, never an error about the manifest. -/
theorem processMap_null_root (w : World) (name : String) (isTest : Bool)
    (cwdOut cwdIn : String) (img raw : Bytes)
    (h0 : w.Getwd 0 = .ok cwdOut) (h1 : w.Getwd 1 = .ok cwdIn)
    (hImg : w.ReadFile (Join [inputRoot cwdIn isTest, name, "image.png"]) = .ok img)
    (hRaw : w.ReadFile (Join [inputRoot cwdIn isTest, name, "info.json"]) = .ok raw)
    (hDec : w.jsonDecode raw = .ok .nil) :
    generatorCalls (processMap w name isTest).2 =
      [{ ImageBuffer := img, RemoveSmall := !isTest, Name := name }] ∧
    (∀ result,
      w.GenerateMap { ImageBuffer := img, RemoveSmall := !isTest, Name := name } = .ok result →
      (processMap w name isTest).1 = .panicked "assignment to entry in nil map") ∧
    (∀ err,
      w.GenerateMap { ImageBuffer := img, RemoveSmall := !isTest, Name := name } = .error err →
      (processMap w name isTest).1 =
        .returned (some (Errorf ("failed to generate map for " ++ name ++ ": ") err))) := by
  have hOut : outputMapDir (w.Getwd 0) isTest = .ok (outputRoot cwdOut isTest) := by
    rw [h0]; cases isTest <;> rfl
  have hIn : inputMapDir (w.Getwd 1) isTest = .ok (inputRoot cwdIn isTest) := by
    rw [h1]; cases isTest <;> rfl
  have hU : Unmarshal w raw = .ok none := by
    unfold Unmarshal
    rw [hDec]
  refine ⟨?_, ?_, ?_⟩
  · unfold processMap
    simp only [hOut, hIn, hImg, hRaw, hU]
    cases hG : w.GenerateMap { ImageBuffer := img, RemoveSmall := !isTest, Name := name } <;> rfl
  · intro result hG
    unfold processMap
    simp only [hOut, hIn, hImg, hRaw, hU, hG]
  · intro err hG
    unfold processMap
    simp only [hOut, hIn, hImg, hRaw, hU, hG]

/-- The part of C3 the code keeps: when `info.json` decodes to a boolean, a number, a
string or an array, `processMap` returns the error of `Unmarshal` wrapped as
`failed to parse info.json for <name>: ` and does not call the generator. -/
theorem processMap_non_object_root (w : World) (name : String) (isTest : Bool)
    (cwdOut cwdIn : String) (img raw : Bytes) (root : GoValue)
    (h0 : w.Getwd 0 = .ok cwdOut) (h1 : w.Getwd 1 = .ok cwdIn)
    (hImg : w.ReadFile (Join [inputRoot cwdIn isTest, name, "image.png"]) = .ok img)
    (hRaw : w.ReadFile (Join [inputRoot cwdIn isTest, name, "info.json"]) = .ok raw)
    (hDec : w.jsonDecode raw = .ok root)
    (hRoot : (∃ b, root = .bool b) ∨ (∃ x, root = .float64 x) ∨ (∃ s, root = .string s) ∨
      (∃ xs, root = .slice xs)) :
    ∃ err, Unmarshal w raw = .error err ∧
      (processMap w name isTest).1 =
        .returned (some (Errorf ("failed to parse info.json for " ++ name ++ ": ") err)) ∧
      generatorCalls (processMap w name isTest).2 = [] := by
  have hOut : outputMapDir (w.Getwd 0) isTest = .ok (outputRoot cwdOut isTest) := by
    rw [h0]; cases isTest <;> rfl
  have hIn : inputMapDir (w.Getwd 1) isTest = .ok (inputRoot cwdIn isTest) := by
    rw [h1]; cases isTest <;> rfl
  have hU : ∃ err, Unmarshal w raw = .error err := by
    unfold Unmarshal
    rcases hRoot with ⟨b, rfl⟩ | ⟨x, rfl⟩ | ⟨s, rfl⟩ | ⟨xs, rfl⟩ <;> rw [hDec] <;> exact ⟨_, rfl⟩
  obtain ⟨err, hErr⟩ := hU
  refine ⟨err, hErr, ?_, ?_⟩
  · unfold processMap
    simp only [hOut, hIn, hImg, hRaw, hErr]
  · unfold processMap
    simp only [hOut, hIn, hImg, hRaw, hErr]
    rfl

theorem infix_ctx (a b x : String) : x.data <:+: (a ++ x ++ b).data :=
  ⟨a.data, b.data, by simp [String.data_append]⟩

/-- C10 (counterexample): when the working directory cannot be determined, the error
`processMap "europe" false` returns has the text
`failed to get map directory: failed to get working directory: getwd: no such file or directory`,
which contains neither the map name nor a path separator, hence no file path. -/
theorem processMap_getwd_error_names_nothing :
    (processMap noCwdWorld "europe" false).1 =
      .returned (some (Errorf "failed to get map directory: "
        (Errorf "failed to get working directory: "
          (.base "getwd: no such file or directory")))) ∧
    (Errorf "failed to get map directory: "
        (Errorf "failed to get working directory: "
          (.base "getwd: no such file or directory"))).Error =
      "failed to get map directory: failed to get working directory: getwd: no such file or directory" ∧
    ¬ ("europe".data <:+:
        "failed to get map directory: failed to get working directory: getwd: no such file or directory".data) ∧
    '/' ∉ "failed to get map directory: failed to get working directory: getwd: no such file or directory".data := by
  refine ⟨by decide, by decide, by decide, by decide⟩

/-- The shape of every error `processMap` returns.  Either `os.Getwd` failed with `u` and
the error is `u` wrapped as `failed to get working directory: ` and then as
`failed to get map directory: ` (first call) or `failed to get input map directory: `
(second call); or `os.ReadFile path` failed with `u` and the error wraps `u` with a
context that contains `path`; or the JSON decoding, the generator, `os.MkdirAll`, an
`os.WriteFile` or the serialisation failed with `u` and the error wraps `u` with a context
that contains the map name. -/
theorem processMap_error_shape (w : World) (name : String) (isTest : Bool) (e : GoError)
    (h : (processMap w name isTest).1 = .returned (some e)) :
    (∃ u, (w.Getwd 0 = .error u ∧
            e = Errorf "failed to get map directory: "
                  (Errorf "failed to get working directory: " u)) ∨
          (w.Getwd 1 = .error u ∧
            e = Errorf "failed to get input map directory: "
                  (Errorf "failed to get working directory: " u))) ∨
    (∃ path u ctx, w.ReadFile path = .error u ∧ e = Errorf ctx u ∧
        path.data <:+: ctx.data) ∨
    (∃ u ctx, e = Errorf ctx u ∧ name.data <:+: ctx.data ∧
        ((∃ data, Unmarshal w data = .error u) ∨
         (∃ args, w.GenerateMap args = .error u) ∨
         (∃ path perm, w.MkdirAll path perm = some u) ∨
         (∃ path data perm, w.WriteFile path data perm = some u) ∨
         (∃ m, w.MarshalIndent m "" "  " = .error u))) := by
  have key : ∀ {x y : GoError} {t : List Event},
      (Outcome.returned (some x), t).1 = Outcome.returned (some y) → y = x := by
    intro x y t hxy
    simp only [Outcome.returned.injEq, Option.some.injEq] at hxy
    exact hxy.symm
  unfold processMap at h
  split at h
  · rename_i err hOut
    left
    unfold outputMapDir at hOut
    split at hOut
    · rename_i u hu
      simp only [Except.error.injEq] at hOut
      exact ⟨u, Or.inl ⟨hu, by rw [key h, ← hOut]⟩⟩
    · split at hOut <;> simp at hOut
  split at h
  · rename_i err hIn
    left
    unfold inputMapDir at hIn
    split at hIn
    · rename_i u hu
      simp only [Except.error.injEq] at hIn
      exact ⟨u, Or.inr ⟨hu, by rw [key h, ← hIn]⟩⟩
    · split at hIn <;> simp at hIn
  simp only [] at h
  split at h
  · rename_i u hu
    exact Or.inr (Or.inl ⟨_, u, _, hu, key h, infix_ctx _ _ _⟩)
  split at h
  · rename_i u hu
    exact Or.inr (Or.inl ⟨_, u, _, hu, key h, infix_ctx _ _ _⟩)
  right; right
  split at h
  · rename_i u hu
    exact ⟨u, _, key h, infix_ctx _ _ _, Or.inl ⟨_, hu⟩⟩
  split at h
  · rename_i u hu
    exact ⟨u, _, key h, infix_ctx _ _ _, Or.inr (Or.inl ⟨_, hu⟩)⟩
  split at h
  · simp at h
  split at h
  · rename_i u hu
    exact ⟨u, _, key h, infix_ctx _ _ _, Or.inr (Or.inr (Or.inl ⟨_, _, hu⟩))⟩
  split at h
  · rename_i u hu
    exact ⟨u, _, key h, infix_ctx _ _ _, Or.inr (Or.inr (Or.inr (Or.inl ⟨_, _, _, hu⟩)))⟩
  split at h
  · rename_i u hu
    exact ⟨u, _, key h, infix_ctx _ _ _, Or.inr (Or.inr (Or.inr (Or.inl ⟨_, _, _, hu⟩)))⟩
  split at h
  · rename_i u hu
    exact ⟨u, _, key h, infix_ctx _ _ _, Or.inr (Or.inr (Or.inr (Or.inl ⟨_, _, _, hu⟩)))⟩
  split at h
  · rename_i u hu
    exact ⟨u, _, key h, infix_ctx _ _ _, Or.inr (Or.inr (Or.inr (Or.inl ⟨_, _, _, hu⟩)))⟩
  split at h
  · rename_i u hu
    exact ⟨u, _, key h, infix_ctx _ _ _, Or.inr (Or.inr (Or.inr (Or.inr ⟨_, hu⟩)))⟩
  split at h
  · rename_i u hu
    exact ⟨u, _, key h, infix_ctx _ _ _, Or.inr (Or.inr (Or.inr (Or.inl ⟨_, _, _, hu⟩)))⟩
  · simp at h

/-- C10 (amended): every way a step of `processMap` can fail, in the order of the steps,
each under the success of the steps before it.  When `os.Getwd` fails with `u`, the error
returned is `u` wrapped as `failed to get working directory: ` and then as
`failed to get map directory: ` (first call) or `failed to get input map directory: `
(second call), whatever the map name.  When reading `image.png` or `info.json` fails with
`u`, the error returned wraps `u` with a context message that contains the path of the
file.  When decoding `info.json`, the generator, `os.MkdirAll`, one of the five
`os.WriteFile`s or `json.MarshalIndent` fails with `u`, the error returned wraps `u` with
a context message that contains the map name. -/
theorem processMap_error_context (w : World) (name : String) (isTest : Bool) :
    (∀ u, w.Getwd 0 = .error u →
      (processMap w name isTest).1 =
        .returned (some (Errorf "failed to get map directory: "
          (Errorf "failed to get working directory: " u)))) ∧
    (∀ cwdOut, w.Getwd 0 = .ok cwdOut →
      (∀ u, w.Getwd 1 = .error u →
        (processMap w name isTest).1 =
          .returned (some (Errorf "failed to get input map directory: "
            (Errorf "failed to get working directory: " u)))) ∧
      (∀ cwdIn, w.Getwd 1 = .ok cwdIn →
        (∀ u, w.ReadFile (Join [inputRoot cwdIn isTest, name, "image.png"]) = .error u →
          WrapsNaming (processMap w name isTest).1 u
            (Join [inputRoot cwdIn isTest, name, "image.png"])) ∧
        (∀ img, w.ReadFile (Join [inputRoot cwdIn isTest, name, "image.png"]) = .ok img →
          (∀ u, w.ReadFile (Join [inputRoot cwdIn isTest, name, "info.json"]) = .error u →
            WrapsNaming (processMap w name isTest).1 u
              (Join [inputRoot cwdIn isTest, name, "info.json"])) ∧
          (∀ raw, w.ReadFile (Join [inputRoot cwdIn isTest, name, "info.json"]) = .ok raw →
            (∀ u, Unmarshal w raw = .error u →
              WrapsNaming (processMap w name isTest).1 u name) ∧
            (∀ manifest, Unmarshal w raw = .ok manifest →
              (∀ u, w.GenerateMap { ImageBuffer := img, RemoveSmall := !isTest, Name := name }
                  = .error u →
                WrapsNaming (processMap w name isTest).1 u name) ∧
              (∀ result m,
                w.GenerateMap { ImageBuffer := img, RemoveSmall := !isTest, Name := name }
                  = .ok result →
                manifest = some m →
                (∀ u, w.MkdirAll (Join [outputRoot cwdOut isTest, name]) 0o755 = some u →
                  WrapsNaming (processMap w name isTest).1 u name) ∧
                (w.MkdirAll (Join [outputRoot cwdOut isTest, name]) 0o755 = none →
                  (∀ u, w.WriteFile (Join [Join [outputRoot cwdOut isTest, name], "map.bin"])
                      result.Map.Data 0o644 = some u →
                    WrapsNaming (processMap w name isTest).1 u name) ∧
                  (w.WriteFile (Join [Join [outputRoot cwdOut isTest, name], "map.bin"])
                      result.Map.Data 0o644 = none →
                    (∀ u, w.WriteFile (Join [Join [outputRoot cwdOut isTest, name], "map4x.bin"])
                        result.Map4x.Data 0o644 = some u →
                      WrapsNaming (processMap w name isTest).1 u name) ∧
                    (w.WriteFile (Join [Join [outputRoot cwdOut isTest, name], "map4x.bin"])
                        result.Map4x.Data 0o644 = none →
                      (∀ u, w.WriteFile
                          (Join [Join [outputRoot cwdOut isTest, name], "map16x.bin"])
                          result.Map16x.Data 0o644 = some u →
                        WrapsNaming (processMap w name isTest).1 u name) ∧
                      (w.WriteFile (Join [Join [outputRoot cwdOut isTest, name], "map16x.bin"])
                          result.Map16x.Data 0o644 = none →
                        (∀ u, w.WriteFile
                            (Join [Join [outputRoot cwdOut isTest, name], "thumbnail.webp"])
                            result.Thumbnail 0o644 = some u →
                          WrapsNaming (processMap w name isTest).1 u name) ∧
                        (w.WriteFile
                            (Join [Join [outputRoot cwdOut isTest, name], "thumbnail.webp"])
                            result.Thumbnail 0o644 = none →
                          (∀ u, w.MarshalIndent
                              (mapAssign (mapAssign (mapAssign m "map" (layerDims result.Map))
                                "map4x" (layerDims result.Map4x))
                                "map16x" (layerDims result.Map16x)) "" "  " = .error u →
                            WrapsNaming (processMap w name isTest).1 u name) ∧
                          (∀ bytes u, w.MarshalIndent
                              (mapAssign (mapAssign (mapAssign m "map" (layerDims result.Map))
                                "map4x" (layerDims result.Map4x))
                                "map16x" (layerDims result.Map16x)) "" "  " = .ok bytes →
                            w.WriteFile
                              (Join [Join [outputRoot cwdOut isTest, name], "manifest.json"])
                              bytes 0o644 = some u →
                            WrapsNaming (processMap w name isTest).1 u name)))))))))))) := by
  refine ⟨?_, ?_⟩
  · intro u h0
    unfold processMap outputMapDir
    simp only [h0]
  intro cwdOut h0
  have hOut : outputMapDir (w.Getwd 0) isTest = .ok (outputRoot cwdOut isTest) := by
    rw [h0]; cases isTest <;> rfl
  refine ⟨?_, ?_⟩
  · intro u h1
    unfold processMap
    simp only [hOut]
    unfold inputMapDir
    simp only [h1]
  intro cwdIn h1
  have hIn : inputMapDir (w.Getwd 1) isTest = .ok (inputRoot cwdIn isTest) := by
    rw [h1]; cases isTest <;> rfl
  refine ⟨?_, ?_⟩
  · intro u hImg
    refine ⟨("failed to read map file " ++ Join [inputRoot cwdIn isTest, name, "image.png"] ++ ": "), ?_, infix_ctx _ _ _⟩
    unfold processMap
    simp only [hOut, hIn, hImg]
  intro img hImg
  refine ⟨?_, ?_⟩
  · intro u hRaw
    refine ⟨("failed to read info file " ++ Join [inputRoot cwdIn isTest, name, "info.json"] ++ ": "), ?_, infix_ctx _ _ _⟩
    unfold processMap
    simp only [hOut, hIn, hImg, hRaw]
  intro raw hRaw
  refine ⟨?_, ?_⟩
  · intro u hU
    refine ⟨("failed to parse info.json for " ++ name ++ ": "), ?_, infix_ctx _ _ _⟩
    unfold processMap
    simp only [hOut, hIn, hImg, hRaw, hU]
  intro manifest hU
  refine ⟨?_, ?_⟩
  · intro u hG
    refine ⟨("failed to generate map for " ++ name ++ ": "), ?_, infix_ctx _ _ _⟩
    unfold processMap
    simp only [hOut, hIn, hImg, hRaw, hU, hG]
  intro result m hG hm
  subst hm
  simp only [layerDims]
  refine ⟨?_, ?_⟩
  · intro u hMk
    refine ⟨("failed to create output directory for " ++ name ++ ": "), ?_, infix_ctx _ _ _⟩
    unfold processMap
    simp only [hOut, hIn, hImg, hRaw, hU, hG, hMk]
  intro hMk
  refine ⟨?_, ?_⟩
  · intro u hW1
    refine ⟨("failed to write combined binary for " ++ name ++ ": "), ?_, infix_ctx _ _ _⟩
    unfold processMap
    simp only [hOut, hIn, hImg, hRaw, hU, hG, hMk, hW1]
  intro hW1
  refine ⟨?_, ?_⟩
  · intro u hW2
    refine ⟨("failed to write combined binary for " ++ name ++ ": "), ?_, infix_ctx _ _ _⟩
    unfold processMap
    simp only [hOut, hIn, hImg, hRaw, hU, hG, hMk, hW1, hW2]
  intro hW2
  refine ⟨?_, ?_⟩
  · intro u hW3
    refine ⟨("failed to write combined binary for " ++ name ++ ": "), ?_, infix_ctx _ _ _⟩
    unfold processMap
    simp only [hOut, hIn, hImg, hRaw, hU, hG, hMk, hW1, hW2, hW3]
  intro hW3
  refine ⟨?_, ?_⟩
  · intro u hW4
    refine ⟨("failed to write thumbnail for " ++ name ++ ": "), ?_, infix_ctx _ _ _⟩
    unfold processMap
    simp only [hOut, hIn, hImg, hRaw, hU, hG, hMk, hW1, hW2, hW3, hW4]
  intro hW4
  refine ⟨?_, ?_⟩
  · intro u hMar
    refine ⟨("failed to serialize manifest for " ++ name ++ ": "), ?_, infix_ctx _ _ _⟩
    unfold processMap
    simp only [hOut, hIn, hImg, hRaw, hU, hG, hMk, hW1, hW2, hW3, hW4, hMar]
  · intro bytes u hMar hW5
    refine ⟨("failed to write manifest for " ++ name ++ ": "), ?_, infix_ctx _ _ _⟩
    unfold processMap
    simp only [hOut, hIn, hImg, hRaw, hU, hG, hMk, hW1, hW2, hW3, hW4, hMar, hW5]

theorem processMap_error_context_witness :
    noCwdWorld.Getwd 0 = .error (.base "getwd: no such file or directory") ∧
    (processMap noCwdWorld "map" false).1 =
      .returned (some (Errorf "failed to get map directory: "
        (Errorf "failed to get working directory: "
          (.base "getwd: no such file or directory")))) ∧
    (sampleWorld emptyInfo).Getwd 0 = .ok "/repo/map-generator" ∧
    (sampleWorld emptyInfo).Getwd 1 = .ok "/repo/map-generator" ∧
    (sampleWorld emptyInfo).ReadFile
        (Join [inputRoot "/repo/map-generator" false, "asia", "image.png"])
      = .error (.base
          "open /repo/map-generator/assets/maps/asia/image.png: no such file or directory") ∧
    WrapsNaming (processMap (sampleWorld emptyInfo) "asia" false).1
      (.base "open /repo/map-generator/assets/maps/asia/image.png: no such file or directory")
      (Join [inputRoot "/repo/map-generator" false, "asia", "image.png"]) :=
  ⟨rfl,
   (processMap_error_context noCwdWorld "map" false).1 _ rfl,
   rfl, rfl, rfl,
   (((processMap_error_context (sampleWorld emptyInfo) "asia" false).2
      "/repo/map-generator" rfl).2 "/repo/map-generator" rfl).1 _ rfl⟩

/-! ## Theorems: paths and the built-in catalog -/

theorem splitChars_ne_nil (sep : Char) (l : List Char) : splitChars sep l ≠ [] := by
  cases l with
  | nil => simp [splitChars]
  | cons c cs =>
    unfold splitChars
    split
    · simp
    · split <;> simp

theorem splitChars_append_sep (sep : Char) (a b : List Char) :
    splitChars sep (a ++ sep :: b) = splitChars sep a ++ splitChars sep b := by
  induction a with
  | nil => simp [splitChars]
  | cons c cs ih =>
    rw [List.cons_append]
    by_cases hc : c = sep
    · simp only [splitChars, hc, if_true, ih, List.cons_append]
    · have hne := splitChars_ne_nil sep cs
      cases hs : splitChars sep cs with
      | nil => exact absurd hs hne
      | cons w ws =>
        simp only [splitChars, hc, if_false, ih, hs, List.cons_append]

theorem splitChars_no_sep (sep : Char) (b : List Char) (h : sep ∉ b) :
    splitChars sep b = [b] := by
  induction b with
  | nil => rfl
  | cons c cs ih =>
    have hc : ¬ c = sep := fun hc => h (by simp [hc])
    have hcs : sep ∉ cs := fun hm => h (List.mem_cons_of_mem _ hm)
    simp only [splitChars, hc, if_false, ih hcs]

theorem foldl_cleanStep_simple (rooted : Bool) (cs : List (List Char))
    (h : ∀ c ∈ cs, simpleName c) (stk : List (List Char)) :
    cs.foldl (cleanStep rooted) stk = cs.reverse ++ stk := by
  induction cs generalizing stk with
  | nil => rfl
  | cons c cs ih =>
    have hc := h c (List.mem_cons_self _ _)
    have hstep : cleanStep rooted stk c = c :: stk := by
      unfold cleanStep
      rw [if_neg (by simp [hc.1, hc.2.1]), if_neg hc.2.2.1]
    rw [List.foldl_cons, hstep, ih (fun c' hc' => h c' (List.mem_cons_of_mem _ hc'))]
    simp

theorem intercalate_cons_cons (sep a b : List Char) (l : List (List Char)) :
    List.intercalate sep (a :: b :: l) = a ++ sep ++ List.intercalate sep (b :: l) := by
  simp [List.intercalate, List.intersperse]


theorem intercalate_ne_nil (cs : List (List Char)) (hne : cs ≠ [])
    (h : ∀ c ∈ cs, simpleName c) : List.intercalate ['/'] cs ≠ [] := by
  cases cs with
  | nil => exact absurd rfl hne
  | cons c cs =>
    have hc := (h c (List.mem_cons_self _ _)).1
    cases cs with
    | nil => simpa [List.intercalate, List.intersperse] using hc
    | cons d ds =>
      rw [intercalate_cons_cons]
      simp [hc]

theorem intercalate_append_tail (A cs : List (List Char)) (hne : cs ≠ []) :
    ∃ Z, List.intercalate ['/'] (A ++ cs) = Z ++ List.intercalate ['/'] cs ∧
      (Z = [] ∨ ∃ Z', Z = Z' ++ ['/']) := by
  induction A with
  | nil => exact ⟨[], rfl, Or.inl rfl⟩
  | cons a A ih =>
    obtain ⟨Z, hZ, hform⟩ := ih
    have hne' : A ++ cs ≠ [] := by simp [hne]
    cases hA : A ++ cs with
    | nil => exact absurd hA hne'
    | cons b l =>
      rw [List.cons_append, hA, intercalate_cons_cons, ← hA, hZ]
      refine ⟨a ++ ['/'] ++ Z, by simp, ?_⟩
      rcases hform with rfl | ⟨Z', rfl⟩
      · exact Or.inr ⟨a, by simp⟩
      · exact Or.inr ⟨a ++ ['/'] ++ Z', by simp⟩

theorem splitChars_intercalate (cs : List (List Char)) (hne : cs ≠ [])
    (h : ∀ c ∈ cs, simpleName c) :
    splitChars '/' (List.intercalate ['/'] cs) = cs := by
  induction cs with
  | nil => exact absurd rfl hne
  | cons c cs ih =>
    have hc := h c (List.mem_cons_self _ _)
    cases cs with
    | nil =>
      simpa [List.intercalate, List.intersperse] using splitChars_no_sep '/' c hc.2.2.2
    | cons d ds =>
      rw [intercalate_cons_cons]
      have : c ++ ['/'] ++ List.intercalate ['/'] (d :: ds)
          = c ++ '/' :: List.intercalate ['/'] (d :: ds) := by simp
      rw [this, splitChars_append_sep, splitChars_no_sep '/' c hc.2.2.2,
        ih (by simp) (fun c' hc' => h c' (List.mem_cons_of_mem _ hc'))]
      rfl

/-- Cleaning a path that ends with simple components keeps them at its end. -/
theorem Clean_tail (pre : List Char) (cs : List (List Char)) (hne : cs ≠ [])
    (h : ∀ c ∈ cs, simpleName c) (hpre : pre = [] ∨ ∃ pre', pre = pre' ++ ['/']) :
    ∃ Z, (Clean ⟨pre ++ List.intercalate ['/'] cs⟩).data = Z ++ List.intercalate ['/'] cs ∧
      (Z = [] ∨ ∃ Z', Z = Z' ++ ['/']) := by
  have hsplit : ∃ B, splitChars '/' (pre ++ List.intercalate ['/'] cs) = B ++ cs := by
    rcases hpre with rfl | ⟨pre', rfl⟩
    · exact ⟨[], by simp [splitChars_intercalate cs hne h]⟩
    · refine ⟨splitChars '/' pre', ?_⟩
      have : pre' ++ ['/'] ++ List.intercalate ['/'] cs
          = pre' ++ '/' :: List.intercalate ['/'] cs := by simp
      rw [this, splitChars_append_sep, splitChars_intercalate cs hne h]
  obtain ⟨B, hB⟩ := hsplit
  unfold Clean
  simp only [hB, List.foldl_append, foldl_cleanStep_simple _ cs h, List.reverse_append,
    List.reverse_reverse]
  obtain ⟨Z, hZ, hform⟩ := intercalate_append_tail
    (List.foldl (cleanStep (decide ((pre ++ List.intercalate ['/'] cs).head? = some '/'))) [] B).reverse
    cs hne
  have hbody := intercalate_ne_nil cs hne h
  rw [hZ]
  split
  · refine ⟨'/' :: Z, rfl, ?_⟩
    rcases hform with rfl | ⟨Z', rfl⟩
    · exact Or.inr ⟨[], rfl⟩
    · exact Or.inr ⟨'/' :: Z', rfl⟩
  · rw [if_neg (by simp [hbody])]
    exact ⟨Z, rfl, hform⟩


theorem Join_cons_of_ne (e : String) (es : List String) (he : e ≠ "") :
    Join (e :: es) = Clean ⟨List.intercalate ['/'] ((e :: es).map String.data)⟩ := by
  unfold Join
  rw [List.dropWhile_cons_of_neg (by simpa using he)]

theorem Join_tail (cwd : String) (cs : List String) (hne : cs ≠ [])
    (h : ∀ c ∈ cs, simpleName c.data) :
    ∃ Z, (Join (cwd :: ".." :: cs)).data = Z ++ List.intercalate ['/'] (cs.map String.data) ∧
      (Z = [] ∨ ∃ Z', Z = Z' ++ ['/']) := by
  have hne' : cs.map String.data ≠ [] := by simpa using hne
  have h' : ∀ c ∈ cs.map String.data, simpleName c := by
    intro c hc
    obtain ⟨c', hc', rfl⟩ := List.mem_map.1 hc
    exact h c' hc'
  obtain ⟨d, ds, hds⟩ : ∃ d ds, cs.map String.data = d :: ds := by
    cases hm : cs.map String.data with
    | nil => exact absurd hm hne'
    | cons d ds => exact ⟨d, ds, rfl⟩
  by_cases hcwd : cwd = ""
  · subst hcwd
    have hJ : Join ("" :: ".." :: cs)
        = Clean ⟨(['.', '.'] ++ ['/']) ++ List.intercalate ['/'] (cs.map String.data)⟩ := by
      unfold Join
      rw [List.dropWhile_cons_of_pos (by simp), List.dropWhile_cons_of_neg (by decide)]
      simp only [List.map_cons, hds, intercalate_cons_cons]
    rw [hJ]
    exact Clean_tail _ _ hne' h' (Or.inr ⟨_, rfl⟩)
  · have hJ : Join (cwd :: ".." :: cs)
        = Clean ⟨(cwd.data ++ ['/'] ++ ['.', '.'] ++ ['/']) ++
            List.intercalate ['/'] (cs.map String.data)⟩ := by
      unfold Join
      rw [List.dropWhile_cons_of_neg (by simpa using hcwd)]
      simp only [List.map_cons, hds, intercalate_cons_cons]
      simp
    rw [hJ]
    exact Clean_tail _ _ hne' h' (Or.inr ⟨_, rfl⟩)

theorem mapDir_tail (cwd : String) (mi : MapItem) (h : simpleName mi.Name.data) :
    ∃ Z, (mapDir cwd mi).data = Z ++ dirTail mi := by
  obtain ⟨n, t⟩ := mi
  have key : ∀ (cs : List String), cs ≠ [] → (∀ c ∈ cs, simpleName c.data) →
      ∃ Z, (Join [Join (cwd :: ".." :: cs), n]).data
        = Z ++ (List.intercalate ['/'] (cs.map String.data) ++ ['/'] ++ n.data) := by
    intro cs hne hs
    obtain ⟨Z1, hZ1, hform⟩ := Join_tail cwd cs hne hs
    have hne' : cs.map String.data ≠ [] := by simpa using hne
    have hR : Join (cwd :: ".." :: cs) ≠ "" := by
      intro hR
      have := congrArg String.data hR
      rw [hZ1] at this
      have h2 := intercalate_ne_nil (cs.map String.data) hne' (by
        intro c hc
        obtain ⟨c', hc', rfl⟩ := List.mem_map.1 hc
        exact hs c' hc')
      simp at this
      exact h2 this.2
    have hn : n ≠ "" := by
      intro hn
      exact h.1 (by simp [hn])
    have hI : List.intercalate ['/'] (cs.map String.data ++ [n.data])
        = List.intercalate ['/'] (cs.map String.data) ++ ['/'] ++ n.data := by
      generalize cs.map String.data = l at hne'
      induction l with
      | nil => exact absurd rfl hne'
      | cons a l ih =>
        cases l with
        | nil => simp [List.intercalate, List.intersperse]
        | cons b l =>
          rw [List.cons_append, List.cons_append, intercalate_cons_cons, ← List.cons_append,
            ih (by simp), intercalate_cons_cons]
          simp
    have hJ : Join [Join (cwd :: ".." :: cs), n]
        = Clean ⟨Z1 ++ List.intercalate ['/'] (cs.map String.data ++ [n.data])⟩ := by
      rw [Join_cons_of_ne _ _ hR, hI]
      simp only [List.map_cons, List.map_nil, intercalate_cons_cons]
      rw [hZ1]
      simp [List.intercalate, List.intersperse]
    obtain ⟨Z2, hZ2, -⟩ := Clean_tail Z1 (cs.map String.data ++ [n.data]) (by simp)
      (by
        intro c hc
        rcases List.mem_append.1 hc with hc | hc
        · obtain ⟨c', hc', rfl⟩ := List.mem_map.1 hc
          exact hs c' hc'
        · rw [List.mem_singleton.1 hc]; exact h) hform
    exact ⟨Z2, by rw [hJ, hZ2, hI]⟩
  cases t with
  | false =>
    obtain ⟨Z, hZ⟩ := key ["resources", "maps"] (by simp) (by decide)
    exact ⟨Z, hZ⟩
  | true =>
    obtain ⟨Z, hZ⟩ := key ["tests", "testdata", "maps"] (by simp) (by decide)
    exact ⟨Z, hZ⟩

theorem maps_dirTail_pairwise :
    maps.Pairwise (fun a b => ¬ dirTail a <:+ dirTail b ∧ ¬ dirTail b <:+ dirTail a) := by
  decide


/-- C8: the built-in catalog has exactly 37 entries, exactly five of them test entries,
and no entry occurs twice; `giantworldmap` is the only name that occurs more than once,
namely once as a production and once as a test entry; and in every working directory the
output directories of the 37 entries are pairwise different. -/
theorem maps_catalog :
    maps.length = 37 ∧
    (maps.filter (fun mi => mi.IsTest)).length = 5 ∧
    maps.Nodup ∧
    (∀ n : String, 2 ≤ (maps.filter (fun mi => mi.Name = n)).length ↔ n = "giantworldmap") ∧
    maps.filter (fun mi => mi.Name = "giantworldmap")
      = [⟨"giantworldmap", false⟩, ⟨"giantworldmap", true⟩] ∧
    ∀ cwd : String, (maps.map (mapDir cwd)).Nodup := by
  refine ⟨by decide, by decide, by decide, ?_, by decide, ?_⟩
  · intro n
    by_cases hn : ∃ mi ∈ maps, mi.Name = n
    · obtain ⟨mi, hmi, rfl⟩ := hn
      have hall : ∀ mj ∈ maps,
          (2 ≤ (maps.filter (fun mi => mi.Name = mj.Name)).length ↔
            mj.Name = "giantworldmap") := by decide
      exact hall mi hmi
    · have hnil : maps.filter (fun mi => mi.Name = n) = [] := by
        rw [List.filter_eq_nil_iff]
        intro mi hmi hEq
        exact hn ⟨mi, hmi, by simpa using hEq⟩
      rw [hnil]
      constructor
      · intro h2
        simp at h2
      · rintro rfl
        exact absurd ⟨⟨"giantworldmap", false⟩, by decide, rfl⟩ hn
  · intro cwd
    rw [List.Nodup, List.pairwise_map]
    have hsimple : ∀ mi ∈ maps, simpleName mi.Name.data := by decide
    refine List.Pairwise.imp_of_mem ?_ maps_dirTail_pairwise
    intro a b ha hb hab hEq
    obtain ⟨Za, hZa⟩ := mapDir_tail cwd a (hsimple a ha)
    obtain ⟨Zb, hZb⟩ := mapDir_tail cwd b (hsimple b hb)
    have h1 : dirTail a <:+ (mapDir cwd a).data := ⟨Za, hZa.symm⟩
    have h2 : dirTail b <:+ (mapDir cwd a).data := ⟨Zb, by rw [hEq]; exact hZb.symm⟩
    rcases List.suffix_or_suffix_of_suffix h1 h2 with h | h
    · exact hab.1 h
    · exact hab.2 h

/-! ## Theorems: `loadTerrainMaps` -/

namespace loadTerrainMaps

theorem sumOver_append (g : MapItem × Phase → Nat) (ws vs : List (MapItem × Phase)) :
    sumOver g (ws ++ vs) = sumOver g ws + sumOver g vs := by
  simp [sumOver]

theorem sumOver_set (g : MapItem × Phase → Nat) (ws : List (MapItem × Phase)) (i : Nat)
    (old new : MapItem × Phase) (h : ws[i]? = some old) :
    sumOver g (ws.set i new) + g old = sumOver g ws + g new := by
  induction ws generalizing i with
  | nil => simp at h
  | cons p ps ih =>
    cases i with
    | zero =>
      simp only [List.getElem?_cons_zero, Option.some.injEq] at h
      subst h
      simp only [sumOver, List.set_cons_zero, List.map_cons, List.sum_cons]
      omega
    | succ j =>
      simp only [List.getElem?_cons_succ] at h
      have := ih j h
      simp only [sumOver, List.set_cons_succ, List.map_cons, List.sum_cons] at this ⊢
      omega

theorem le_sumOver (g : MapItem × Phase → Nat) (ws : List (MapItem × Phase))
    (p : MapItem × Phase) (h : p ∈ ws) : g p ≤ sumOver g ws := by
  induction ws with
  | nil => simp at h
  | cons q qs ih =>
    simp only [sumOver, List.map_cons, List.sum_cons]
    rcases List.mem_cons.1 h with rfl | h
    · omega
    · have := ih h
      simp only [sumOver] at this
      omega

theorem sumOver_le_length (g : MapItem × Phase → Nat) (hg : ∀ p, g p ≤ 1)
    (ws : List (MapItem × Phase)) : sumOver g ws ≤ ws.length := by
  induction ws with
  | nil => simp [sumOver]
  | cons q qs ih =>
    simp only [sumOver, List.map_cons, List.sum_cons, List.length_cons] at ih ⊢
    have := hg q
    omega

theorem exists_pos_of_sumOver_pos (g : MapItem × Phase → Nat) (ws : List (MapItem × Phase))
    (h : 0 < sumOver g ws) : ∃ p ∈ ws, 0 < g p := by
  induction ws with
  | nil => simp [sumOver] at h
  | cons q qs ih =>
    simp only [sumOver, List.map_cons, List.sum_cons] at h
    by_cases hq : 0 < g q
    · exact ⟨q, List.mem_cons_self _ _, hq⟩
    · have : 0 < sumOver g qs := by simp only [sumOver]; omega
      obtain ⟨p, hp, hgp⟩ := ih this
      exact ⟨p, List.mem_cons_of_mem _ hp, hgp⟩

theorem map_fst_set (ws : List (MapItem × Phase)) (i : Nat) (mi : MapItem) (ph ph' : Phase)
    (h : ws[i]? = some (mi, ph)) :
    (ws.set i (mi, ph')).map Prod.fst = ws.map Prod.fst := by
  induction ws generalizing i with
  | nil => simp at h
  | cons p ps ih =>
    cases i with
    | zero =>
      simp only [List.getElem?_cons_zero, Option.some.injEq] at h
      subst h
      rfl
    | succ j =>
      simp only [List.getElem?_cons_succ] at h
      simp only [List.set_cons_succ, List.map_cons, ih j h]

theorem mem_set_self (ws : List (MapItem × Phase)) (i : Nat) (old new : MapItem × Phase)
    (h : ws[i]? = some old) : new ∈ ws.set i new := by
  induction ws generalizing i with
  | nil => simp at h
  | cons p ps ih =>
    cases i with
    | zero => simp
    | succ j =>
      simp only [List.getElem?_cons_succ] at h
      simp only [List.set_cons_succ]
      exact List.mem_cons_of_mem _ (ih j h)

theorem mem_of_mem_set (ws : List (MapItem × Phase)) (i : Nat) (new p : MapItem × Phase)
    (h : p ∈ ws.set i new) : p = new ∨ p ∈ ws := by
  induction ws generalizing i with
  | nil => simp at h
  | cons q qs ih =>
    cases i with
    | zero =>
      simp only [List.set_cons_zero, List.mem_cons] at h
      rcases h with h | h
      · exact Or.inl h
      · exact Or.inr (List.mem_cons_of_mem _ h)
    | succ j =>
      simp only [List.set_cons_succ, List.mem_cons] at h
      rcases h with h | h
      · exact Or.inr (by rw [h]; exact List.mem_cons_self _ _)
      · rcases ih j h with h | h
        · exact Or.inl h
        · exact Or.inr (List.mem_cons_of_mem _ h)

theorem mem_set_of_mem (ws : List (MapItem × Phase)) (i : Nat) (old new p : MapItem × Phase)
    (h : ws[i]? = some old) (hp : p ∈ ws) : p = old ∨ p ∈ ws.set i new := by
  induction ws generalizing i with
  | nil => simp at h
  | cons q qs ih =>
    cases i with
    | zero =>
      simp only [List.getElem?_cons_zero, Option.some.injEq] at h
      subst h
      rcases List.mem_cons.1 hp with hp | hp
      · exact Or.inl hp
      · exact Or.inr (by simp [hp])
    | succ j =>
      simp only [List.getElem?_cons_succ] at h
      rcases List.mem_cons.1 hp with hp | hp
      · exact Or.inr (by simp [hp])
      · rcases ih j h hp with h' | h'
        · exact Or.inl h'
        · exact Or.inr (by simp only [List.set_cons_succ]; exact List.mem_cons_of_mem _ h')

theorem mem_of_getElem? (ws : List (MapItem × Phase)) (i : Nat) (p : MapItem × Phase)
    (h : ws[i]? = some p) : p ∈ ws := by
  induction ws generalizing i with
  | nil => simp at h
  | cons q qs ih =>
    cases i with
    | zero =>
      simp only [List.getElem?_cons_zero, Option.some.injEq] at h
      subst h
      exact List.mem_cons_self _ _
    | succ j =>
      simp only [List.getElem?_cons_succ] at h
      exact List.mem_cons_of_mem _ (ih j h)

theorem getElem?_of_mem (ws : List (MapItem × Phase)) (p : MapItem × Phase)
    (h : p ∈ ws) : ∃ i : Nat, ws[i]? = some p := by
  induction ws with
  | nil => simp at h
  | cons q qs ih =>
    rcases List.mem_cons.1 h with rfl | h
    · exact ⟨0, by simp⟩
    · obtain ⟨i, hi⟩ := ih h
      exact ⟨i + 1, by simpa using hi⟩

variable {catalog : List MapItem} {s s' : State}

theorem inv_init (catalog : List MapItem) : Inv catalog (init catalog) := by
  refine ⟨rfl, rfl, rfl, ?_, rfl, ?_, ?_, ?_, ?_, ?_, ?_⟩
  · simp [init, sumOver]
  · intro h; simp [init, joined] at h
  · intro x hx; simp [init] at hx
  · intro _ p hp; simp [init] at hp
  · intro r hr; simp [init] at hr
  · intro item; simp [init, sumOver]
  · intro msg h; simp [init] at h

/-- While a goroutine has not executed `wg.Done()`, the main goroutine has not passed
`wg.Wait()`. -/
theorem not_joined_of_live {catalog : List MapItem} {s : State} (hinv : Inv catalog s)
    {i : Nat} {p : MapItem × Phase} (hi : s.workers[i]? = some p) (hp : live p = 1) :
    joined s.main = false := by
  cases hj : joined s.main with
  | false => rfl
  | true =>
    have := hinv.allDone hj p (mem_of_getElem? _ _ _ hi)
    omega

theorem not_returned_of_not_joined {s : State} (h : joined s.main = false) :
    ∀ r, s.main ≠ .returned r := by
  intro r hr
  rw [hr] at h
  simp [joined] at h

theorem inv_spawn (hinv : Inv catalog s) {mi : MapItem} {rest : List MapItem}
    (hm : s.main = .spawning (mi :: rest)) :
    Inv catalog { s with main := .spawning rest, wg := s.wg + 1,
                         workers := s.workers ++ [(mi, .ready)] } := by
  have hnr : ∀ r, s.main ≠ .returned r := by intro r hr; rw [hm] at hr; cases hr
  refine ⟨hinv.cap, ?_, ?_, ?_, ?_, ?_, ?_, ?_, ?_, ?_, ?_⟩
  · have := hinv.items
    rw [hm] at this
    simpa [pending] using this
  · show s.wg + 1 = sumOver live (s.workers ++ [(mi, .ready)])
    rw [sumOver_append, ← hinv.wg]
    rfl
  · show s.errChan.length ≤ sumOver sent (s.workers ++ [(mi, .ready)])
    rw [sumOver_append]
    exact Nat.le_trans hinv.chanLen (Nat.le_add_right _ _)
  · have := hinv.closed
    rw [hm] at this
    exact this
  · intro h; simp [joined] at h
  · intro x hx
    obtain ⟨e, he, p, hp, hpe⟩ := hinv.chanSound x hx
    exact ⟨e, he, p, List.mem_append_left _ hp, hpe⟩
  · intro _ p hp e he
    rcases List.mem_append.1 hp with hp | hp
    · exact hinv.chanComplete hnr p hp e he
    · rw [List.mem_singleton.1 hp] at he
      simp [sentErr] at he
  · intro r hr; cases hr
  · intro item
    show s.calls.count item = sumOver (called item) (s.workers ++ [(mi, .ready)])
    rw [sumOver_append, hinv.calls item]
    rfl
  · intro msg h
    obtain ⟨p, hp, hpm⟩ := hinv.panicSome msg h
    exact ⟨p, List.mem_append_left _ hp, hpm⟩

theorem inv_spawn_end (hinv : Inv catalog s) (hm : s.main = .spawning []) :
    Inv catalog { s with main := .waiting } := by
  have hnr : ∀ r, s.main ≠ .returned r := by intro r hr; rw [hm] at hr; cases hr
  refine ⟨hinv.cap, ?_, hinv.wg, hinv.chanLen, ?_, ?_, hinv.chanSound, ?_, ?_, hinv.calls,
    hinv.panicSome⟩
  · have := hinv.items
    rw [hm] at this
    simpa [pending] using this
  · have := hinv.closed
    rw [hm] at this
    exact this
  · intro h; simp [joined] at h
  · intro _; exact hinv.chanComplete hnr
  · intro r hr; cases hr

theorem inv_wait (hinv : Inv catalog s) (hm : s.main = .waiting) (hwg : s.wg = 0) :
    Inv catalog { s with main := .closing } := by
  have hnr : ∀ r, s.main ≠ .returned r := by intro r hr; rw [hm] at hr; cases hr
  refine ⟨hinv.cap, ?_, hinv.wg, hinv.chanLen, ?_, ?_, hinv.chanSound, ?_, ?_, hinv.calls,
    hinv.panicSome⟩
  · have := hinv.items
    rw [hm] at this
    simpa [pending] using this
  · have := hinv.closed
    rw [hm] at this
    exact this
  · intro _ p hp
    have := le_sumOver live s.workers p hp
    rw [← hinv.wg, hwg] at this
    omega
  · intro _; exact hinv.chanComplete hnr
  · intro r hr; cases hr

theorem inv_close (hinv : Inv catalog s) (hm : s.main = .closing) :
    Inv catalog { s with main := .collecting, closed := true } := by
  have hnr : ∀ r, s.main ≠ .returned r := by intro r hr; rw [hm] at hr; cases hr
  refine ⟨hinv.cap, ?_, hinv.wg, hinv.chanLen, rfl, ?_, hinv.chanSound, ?_, ?_, hinv.calls,
    hinv.panicSome⟩
  · have := hinv.items
    rw [hm] at this
    simpa [pending] using this
  · intro _
    exact hinv.allDone (by rw [hm]; rfl)
  · intro _; exact hinv.chanComplete hnr
  · intro r hr; cases hr

theorem inv_recv_some (hinv : Inv catalog s) (hm : s.main = .collecting)
    {err : GoError} {rest : List (Option GoError)} (hc : s.errChan = some err :: rest) :
    Inv catalog { s with main := .returned (some err), errChan := rest } := by
  have hdone := hinv.allDone (by rw [hm]; rfl)
  obtain ⟨e, he, p, hp, hpe⟩ := hinv.chanSound (some err) (by rw [hc]; exact List.mem_cons_self _ _)
  obtain rfl : err = e := Option.some.inj he
  have hlive := hdone p hp
  refine ⟨hinv.cap, ?_, hinv.wg, ?_, ?_, ?_, ?_, ?_, ?_, hinv.calls,
    hinv.panicSome⟩
  · have := hinv.items
    rw [hm] at this
    simpa [pending] using this
  · have := hinv.chanLen
    rw [hc] at this
    exact Nat.le_trans (Nat.le_succ _) this
  · have := hinv.closed
    rw [hm] at this
    exact this
  · intro _; exact hdone
  · intro x hx
    exact hinv.chanSound x (by rw [hc]; exact List.mem_cons_of_mem _ hx)
  · intro h; exact absurd rfl (h (some err))
  · intro r hr
    obtain rfl : some err = r := Main.returned.inj hr
    refine ⟨⟨fun h => (by cases h), fun h => ?_⟩, fun e he => ?_⟩
    · rw [h p hp] at hpe
      cases hpe
    · obtain rfl : err = e := Option.some.inj he
      obtain ⟨mi, ph⟩ := p
      cases ph <;> simp [live] at hlive <;> simp [sentErr] at hpe
      subst hpe
      exact ⟨mi, hp⟩

theorem inv_recv_none (hinv : Inv catalog s)
    {rest : List (Option GoError)} (hc : s.errChan = none :: rest) :
    Inv catalog { s with errChan := rest } := by
  obtain ⟨e, he, -⟩ := hinv.chanSound none (by rw [hc]; exact List.mem_cons_self _ _)
  cases he

theorem inv_recv_end (hinv : Inv catalog s) (hm : s.main = .collecting)
    (hc : s.errChan = []) :
    Inv catalog { s with main := .returned none } := by
  have hnr : ∀ r, s.main ≠ .returned r := by intro r hr; rw [hm] at hr; cases hr
  have hdone := hinv.allDone (by rw [hm]; rfl)
  refine ⟨hinv.cap, ?_, hinv.wg, hinv.chanLen, ?_, ?_, hinv.chanSound, ?_, ?_, hinv.calls,
    hinv.panicSome⟩
  · have := hinv.items
    rw [hm] at this
    simpa [pending] using this
  · have := hinv.closed
    rw [hm] at this
    exact this
  · intro _; exact hdone
  · intro h; exact absurd rfl (h none)
  · intro r hr
    obtain rfl : none = r := Main.returned.inj hr
    refine ⟨⟨fun _ p hp => ?_, fun _ => rfl⟩, fun e he => by cases he⟩
    cases hs : sentErr p with
    | none => rfl
    | some e =>
      have := hinv.chanComplete hnr p hp e hs
      rw [hc] at this
      simp at this

theorem sumOver_set_eq (g : MapItem × Phase → Nat) (ws : List (MapItem × Phase)) (i : Nat)
    (old new : MapItem × Phase) (h : ws[i]? = some old) (hg : g old = g new) :
    sumOver g (ws.set i new) = sumOver g ws := by
  have := sumOver_set g ws i old new h
  omega

theorem exists_set_of_eq {α : Type} (f : MapItem × Phase → Option α)
    (ws : List (MapItem × Phase)) (i : Nat) (old new : MapItem × Phase)
    (h : ws[i]? = some old) (hf : f old = f new) (y : α) :
    (∃ p ∈ ws.set i new, f p = some y) ↔ (∃ p ∈ ws, f p = some y) := by
  constructor
  · rintro ⟨p, hp, hpy⟩
    rcases mem_of_mem_set ws i new p hp with rfl | hp
    · exact ⟨old, mem_of_getElem? ws i old h, by rw [hf]; exact hpy⟩
    · exact ⟨p, hp, hpy⟩
  · rintro ⟨p, hp, hpy⟩
    rcases mem_set_of_mem ws i old new p h hp with rfl | hp
    · exact ⟨new, mem_set_self ws i p new h, by rw [← hf]; exact hpy⟩
    · exact ⟨p, hp, hpy⟩

theorem exists_set_of_imp {α : Type} (f : MapItem × Phase → Option α)
    (ws : List (MapItem × Phase)) (i : Nat) (old new : MapItem × Phase)
    (h : ws[i]? = some old) (y : α) (hf : f old = some y → f new = some y)
    (hex : ∃ p ∈ ws, f p = some y) : ∃ p ∈ ws.set i new, f p = some y := by
  obtain ⟨p, hp, hpy⟩ := hex
  rcases mem_set_of_mem ws i old new p h hp with rfl | hp
  · exact ⟨new, mem_set_self ws i p new h, hf hpy⟩
  · exact ⟨p, hp, hpy⟩

theorem exists_set_of_none {α : Type} (f : MapItem × Phase → Option α)
    (ws : List (MapItem × Phase)) (i : Nat) (old new : MapItem × Phase)
    (h : ws[i]? = some old) (hf : f old = none) (y : α) :
    (∃ p ∈ ws.set i new, f p = some y) ↔ (f new = some y ∨ ∃ p ∈ ws, f p = some y) := by
  constructor
  · rintro ⟨p, hp, hpy⟩
    rcases mem_of_mem_set ws i new p hp with rfl | hp
    · exact Or.inl hpy
    · exact Or.inr ⟨p, hp, hpy⟩
  · rintro (hn | ⟨p, hp, hpy⟩)
    · exact ⟨new, mem_set_self ws i old new h, hn⟩
    · rcases mem_set_of_mem ws i old new p h hp with rfl | hp
      · rw [hf] at hpy; cases hpy
      · exact ⟨p, hp, hpy⟩

theorem panicMsg_of_live (p : MapItem × Phase) (h : live p = 1) : panicMsg p = none := by
  obtain ⟨mi, ph⟩ := p
  cases ph <;> simp [live] at h <;> rfl

/-- The invariant is kept when a goroutine that has not ended changes its phase, given
the facts that depend on the phases. -/
theorem inv_set (hinv : Inv catalog s) {i : Nat} {mi : MapItem} {ph : Phase}
    (hi : s.workers[i]? = some (mi, ph)) (hph : live (mi, ph) = 1)
    (ph' : Phase) (wg' : Nat) (chan' : List (Option GoError)) (calls' : List MapItem)
    (panic' : Option String)
    (hwg : wg' = sumOver live (s.workers.set i (mi, ph')))
    (hlen : chan'.length ≤ sumOver sent (s.workers.set i (mi, ph')))
    (hsound : ∀ x ∈ chan', ∃ e, x = some e ∧
      ∃ p ∈ s.workers.set i (mi, ph'), sentErr p = some e)
    (hcomplete : ∀ p ∈ s.workers.set i (mi, ph'), ∀ e, sentErr p = some e → some e ∈ chan')
    (hcalls : ∀ item, calls'.count item = sumOver (called item) (s.workers.set i (mi, ph')))
    (hps : ∀ msg, panic' = some msg →
      ∃ p ∈ s.workers.set i (mi, ph'), panicMsg p = some msg) :
    Inv catalog { s with workers := s.workers.set i (mi, ph'), wg := wg', errChan := chan',
                         calls := calls', panic := panic' } := by
  have hnj : joined s.main = false := not_joined_of_live hinv hi hph
  refine ⟨hinv.cap, ?_, hwg, hlen, hinv.closed, ?_, hsound, fun _ => hcomplete, ?_, hcalls,
    hps⟩
  · show (s.workers.set i (mi, ph')).map Prod.fst ++ pending s.main = catalog
    rw [map_fst_set _ _ _ _ _ hi]
    exact hinv.items
  · intro h
    rw [hnj] at h
    cases h
  · intro r hr
    exact absurd hr (not_returned_of_not_joined hnj r)

/-- The invariant is kept by a phase change that leaves the wait group, the channel and
the panic state alone. -/
theorem inv_set_quiet (hinv : Inv catalog s) {i : Nat} {mi : MapItem} {ph : Phase}
    (hi : s.workers[i]? = some (mi, ph)) (hph : live (mi, ph) = 1) (ph' : Phase)
    (calls' : List MapItem)
    (hlive : live (mi, ph) = live (mi, ph'))
    (hsent : sent (mi, ph) = sent (mi, ph'))
    (herr : sentErr (mi, ph) = sentErr (mi, ph'))
    (hcalls : ∀ item, calls'.count item + called item (mi, ph)
      = s.calls.count item + called item (mi, ph')) :
    Inv catalog { s with workers := s.workers.set i (mi, ph'), calls := calls' } := by
  refine inv_set hinv hi hph ph' s.wg s.errChan calls' s.panic ?_ ?_ ?_ ?_ ?_ ?_
  · rw [sumOver_set_eq live _ _ _ _ hi hlive]; exact hinv.wg
  · rw [sumOver_set_eq sent _ _ _ _ hi hsent]; exact hinv.chanLen
  · intro x hx
    obtain ⟨e, he, hex⟩ := hinv.chanSound x hx
    exact ⟨e, he, (exists_set_of_eq sentErr _ _ _ _ hi herr e).2 hex⟩
  · intro p hp e he
    obtain ⟨q, hq, hqe⟩ := (exists_set_of_eq sentErr _ _ _ _ hi herr e).1 ⟨p, hp, he⟩
    exact hinv.chanComplete
      (not_returned_of_not_joined (not_joined_of_live hinv hi hph)) q hq e hqe
  · intro item
    have h1 := sumOver_set (called item) _ _ _ (mi, ph') hi
    have h2 := hcalls item
    have h3 := hinv.calls item
    omega
  · intro msg hmsg
    exact exists_set_of_imp panicMsg _ _ _ _ hi msg
      (fun h => by rw [panicMsg_of_live _ hph] at h; cases h) (hinv.panicSome msg hmsg)

theorem inv_call (hinv : Inv catalog s) {i : Nat} {mi : MapItem}
    (hi : s.workers[i]? = some (mi, .ready)) :
    Inv catalog { s with workers := s.workers.set i (mi, .running),
                         calls := s.calls ++ [mi] } := by
  refine inv_set_quiet hinv hi rfl .running _ rfl rfl rfl ?_
  intro item
  by_cases h : mi = item
  · simp [called, h]
  · have h' : ¬ (mi == item) = true := by simpa using h
    simp [called, h, List.count_append, List.count_cons, h']

theorem inv_ret_ok (hinv : Inv catalog s) {i : Nat} {mi : MapItem}
    (hi : s.workers[i]? = some (mi, .running)) (err : Option GoError) :
    Inv catalog { s with workers := s.workers.set i (mi, .returned err) } := by
  refine inv_set_quiet hinv hi rfl (.returned err) s.calls rfl rfl rfl ?_
  intro item
  simp [called]

theorem inv_ret_panic (hinv : Inv catalog s) {i : Nat} {mi : MapItem}
    (hi : s.workers[i]? = some (mi, .running)) (msg : String) :
    Inv catalog { s with workers := s.workers.set i (mi, .panicking msg) } := by
  refine inv_set_quiet hinv hi rfl (.panicking msg) s.calls rfl rfl rfl ?_
  intro item
  simp [called]

theorem inv_send_none (hinv : Inv catalog s) {i : Nat} {mi : MapItem}
    (hi : s.workers[i]? = some (mi, .returned none)) :
    Inv catalog { s with workers := s.workers.set i (mi, .exiting none) } := by
  refine inv_set_quiet hinv hi rfl (.exiting none) s.calls rfl rfl rfl ?_
  intro item
  simp [called]

theorem inv_send_some (hinv : Inv catalog s) {i : Nat} {mi : MapItem} {err : GoError}
    (hi : s.workers[i]? = some (mi, .returned (some err))) :
    Inv catalog { s with errChan := s.errChan ++ [some err],
                         workers := s.workers.set i (mi, .exiting (some err)) } := by
  have hph : live (mi, Phase.returned (some err)) = 1 := rfl
  have hnr := not_returned_of_not_joined (not_joined_of_live hinv hi hph)
  refine inv_set hinv hi hph (.exiting (some err)) s.wg (s.errChan ++ [some err]) s.calls
    s.panic ?_ ?_ ?_ ?_ ?_ ?_
  · rw [sumOver_set_eq live _ _ _ (mi, .exiting (some err)) hi rfl]; exact hinv.wg
  · have h1 := sumOver_set sent _ _ _ (mi, .exiting (some err)) hi
    have h2 := hinv.chanLen
    simp only [sent] at h1
    simp only [List.length_append, List.length_singleton]
    omega
  · intro x hx
    rcases List.mem_append.1 hx with hx | hx
    · obtain ⟨e, he, hex⟩ := hinv.chanSound x hx
      exact ⟨e, he,
        (exists_set_of_none sentErr _ _ _ (mi, .exiting (some err)) hi rfl e).2 (Or.inr hex)⟩
    · rw [List.mem_singleton.1 hx]
      exact ⟨err, rfl, _, mem_set_self _ _ _ _ hi, rfl⟩
  · intro p hp e he
    rcases (exists_set_of_none sentErr _ _ _ (mi, .exiting (some err)) hi rfl e).1
      ⟨p, hp, he⟩ with h | ⟨q, hq, hqe⟩
    · simp only [sentErr] at h
      rw [h]
      exact List.mem_append_right _ (List.mem_singleton_self _)
    · exact List.mem_append_left _ (hinv.chanComplete hnr q hq e hqe)
  · intro item
    have h1 := sumOver_set (called item) _ _ _ (mi, .exiting (some err)) hi
    have h3 := hinv.calls item
    simp only [called] at h1
    omega
  · intro msg hmsg
    exact exists_set_of_imp panicMsg _ _ _ _ hi msg
      (fun h => by simp [panicMsg] at h) (hinv.panicSome msg hmsg)

/-- The invariant is kept by the deferred `wg.Done()`, after a return as well as during a
panic: the phases `ph` and `ph'` before and after agree on everything but the wait group. -/
theorem inv_wg_done (hinv : Inv catalog s) {i : Nat} {mi : MapItem} {ph : Phase}
    (hi : s.workers[i]? = some (mi, ph)) (ph' : Phase)
    (hlive : live (mi, ph) = 1) (hlive' : live (mi, ph') = 0)
    (hsent : sent (mi, ph) = sent (mi, ph'))
    (herr : sentErr (mi, ph) = sentErr (mi, ph'))
    (hcalled : ∀ item, called item (mi, ph) = called item (mi, ph')) :
    Inv catalog { s with wg := s.wg - 1, workers := s.workers.set i (mi, ph') } := by
  have hnr := not_returned_of_not_joined (not_joined_of_live hinv hi hlive)
  refine inv_set hinv hi hlive ph' (s.wg - 1) s.errChan s.calls s.panic
    ?_ ?_ ?_ ?_ ?_ ?_
  · have h1 := sumOver_set live _ _ _ (mi, ph') hi
    have h2 := hinv.wg
    omega
  · rw [sumOver_set_eq sent _ _ _ _ hi hsent]; exact hinv.chanLen
  · intro x hx
    obtain ⟨e, he, hex⟩ := hinv.chanSound x hx
    exact ⟨e, he, (exists_set_of_eq sentErr _ _ _ _ hi herr e).2 hex⟩
  · intro p hp e he
    obtain ⟨q, hq, hqe⟩ := (exists_set_of_eq sentErr _ _ _ _ hi herr e).1 ⟨p, hp, he⟩
    exact hinv.chanComplete hnr q hq e hqe
  · intro item
    have h1 := sumOver_set (called item) _ _ _ (mi, ph') hi
    have h2 := hcalled item
    have h3 := hinv.calls item
    omega
  · intro msg hmsg
    exact exists_set_of_imp panicMsg _ _ _ _ hi msg
      (fun h => by rw [panicMsg_of_live _ hlive] at h; cases h) (hinv.panicSome msg hmsg)

theorem inv_done (hinv : Inv catalog s) {i : Nat} {mi : MapItem} {err : Option GoError}
    (hi : s.workers[i]? = some (mi, .exiting err)) :
    Inv catalog { s with wg := s.wg - 1, workers := s.workers.set i (mi, .done err) } :=
  inv_wg_done hinv hi (.done err) rfl rfl (by cases err <;> rfl) rfl (fun _ => rfl)

theorem inv_done_panicking (hinv : Inv catalog s) {i : Nat} {mi : MapItem} {msg : String}
    (hi : s.workers[i]? = some (mi, .panicking msg)) :
    Inv catalog { s with wg := s.wg - 1, workers := s.workers.set i (mi, .panicked msg) } :=
  inv_wg_done hinv hi (.panicked msg) rfl rfl rfl rfl (fun _ => rfl)

theorem inv_crash (hinv : Inv catalog s) {i : Nat} {mi : MapItem} {msg : String}
    (hi : s.workers[i]? = some (mi, .panicked msg)) :
    Inv catalog { s with panic := some msg } := by
  refine ⟨hinv.cap, hinv.items, hinv.wg, hinv.chanLen, hinv.closed, hinv.allDone,
    hinv.chanSound, hinv.chanComplete, hinv.ret, hinv.calls, ?_⟩
  intro m hm
  obtain rfl : msg = m := Option.some.inj hm
  exact ⟨_, mem_of_getElem? _ _ _ hi, rfl⟩

/-- No goroutine sends on the closed channel. -/
theorem open_of_returned (hinv : Inv catalog s) {i : Nat} {mi : MapItem}
    {err : Option GoError} (hi : s.workers[i]? = some (mi, .returned err)) :
    s.closed = false := by
  have hnj := not_joined_of_live hinv hi rfl
  rw [hinv.closed]
  cases hm : s.main <;> rw [hm] at hnj <;> simp [joined, chanOpen] at hnj ⊢

/-- The counter of the wait group is positive while a goroutine has `wg.Done()` ahead. -/
theorem wg_pos_of_live (hinv : Inv catalog s) {i : Nat} {p : MapItem × Phase}
    (hi : s.workers[i]? = some p) (hp : live p = 1) : 0 < s.wg := by
  have := le_sumOver live s.workers p (mem_of_getElem? _ _ _ hi)
  rw [← hinv.wg, hp] at this
  exact this

theorem sent_le_one (p : MapItem × Phase) : sent p ≤ 1 := by
  obtain ⟨mi, ph⟩ := p
  cases ph with
  | exiting e => cases e <;> simp [sent]
  | done e => cases e <;> simp [sent]
  | _ => simp [sent]

/-- A goroutine that has an error to send finds room in the channel. -/
theorem room_of_returned (hinv : Inv catalog s) {i : Nat} {mi : MapItem} {err : GoError}
    (hi : s.workers[i]? = some (mi, .returned (some err))) :
    s.errChan.length < s.cap := by
  have h1 := sumOver_set sent s.workers i _ (mi, .exiting (some err)) hi
  have h2 := sumOver_le_length sent sent_le_one (s.workers.set i (mi, .exiting (some err)))
  have h3 := hinv.chanLen
  have h4 : s.workers.length ≤ catalog.length := by
    have := congrArg List.length hinv.items
    simp only [List.length_append, List.length_map] at this
    omega
  rw [hinv.cap]
  simp only [sent, List.length_set] at h1 h2
  omega

theorem inv_step (hinv : Inv catalog s) {a : Action} (h : step s a = some s') :
    Inv catalog s' := by
  unfold step at h
  split at h
  · cases h
  cases a with
  | main =>
    simp only at h
    split at h
    · rename_i mi rest hm
      obtain rfl := Option.some.inj h
      exact inv_spawn hinv hm
    · rename_i hm
      obtain rfl := Option.some.inj h
      exact inv_spawn_end hinv hm
    · rename_i hm
      split at h
      · rename_i hwg
        obtain rfl := Option.some.inj h
        exact inv_wait hinv hm hwg
      · cases h
    · rename_i hm
      obtain rfl := Option.some.inj h
      exact inv_close hinv hm
    · rename_i hm
      split at h
      · rename_i err rest hc
        obtain rfl := Option.some.inj h
        exact inv_recv_some hinv hm hc
      · rename_i rest hc
        obtain rfl := Option.some.inj h
        exact inv_recv_none hinv hc
      · rename_i hc
        split at h
        · obtain rfl := Option.some.inj h
          exact inv_recv_end hinv hm hc
        · cases h
    · cases h
  | call i =>
    simp only at h
    split at h
    · rename_i mi hi
      obtain rfl := Option.some.inj h
      exact inv_call hinv hi
    · cases h
  | ret i w =>
    simp only at h
    split at h
    · rename_i mi hi
      split at h
      · rename_i err _
        obtain rfl := Option.some.inj h
        exact inv_ret_ok hinv hi err
      · rename_i msg _
        obtain rfl := Option.some.inj h
        exact inv_ret_panic hinv hi msg
    · cases h
  | send i =>
    simp only at h
    split at h
    · rename_i mi hi
      obtain rfl := Option.some.inj h
      exact inv_send_none hinv hi
    · rename_i mi err hi
      split at h
      · rename_i hcl
        rw [open_of_returned hinv hi] at hcl
        cases hcl
      · split at h
        · obtain rfl := Option.some.inj h
          exact inv_send_some hinv hi
        · cases h
    · cases h
  | done i =>
    simp only at h
    split at h
    · rename_i mi err hi
      have hpos := wg_pos_of_live hinv hi rfl
      rw [if_neg (by omega)] at h
      obtain rfl := Option.some.inj h
      exact inv_done hinv hi
    · rename_i mi msg hi
      have hpos := wg_pos_of_live hinv hi rfl
      rw [if_neg (by omega)] at h
      obtain rfl := Option.some.inj h
      exact inv_done_panicking hinv hi
    · cases h
  | crash i =>
    simp only at h
    split at h
    · rename_i mi msg hi
      obtain rfl := Option.some.inj h
      exact inv_crash hinv hi
    · cases h

theorem fuel_step {a : Action} (h : step s a = some s') : fuel s' + 1 ≤ fuel s := by
  unfold step at h
  split at h
  · cases h
  rename_i hp
  cases a with
  | main =>
    simp only at h
    split at h
    · rename_i mi rest hm
      obtain rfl := Option.some.inj h
      simp only [fuel, hm, hp, mainSteps, pending, sumOver_append, List.length_cons]
      simp only [sumOver, stepsLeft, List.map_cons, List.map_nil, List.sum_cons, List.sum_nil]
      omega
    · rename_i hm
      obtain rfl := Option.some.inj h
      simp only [fuel, hm, hp, mainSteps, pending]
      omega
    · rename_i hm
      split at h
      · obtain rfl := Option.some.inj h
        simp only [fuel, hm, hp, mainSteps, pending]
        omega
      · cases h
    · rename_i hm
      obtain rfl := Option.some.inj h
      simp only [fuel, hm, hp, mainSteps, pending]
      omega
    · rename_i hm
      split at h
      · rename_i err rest hc
        obtain rfl := Option.some.inj h
        simp only [fuel, hm, hp, hc, mainSteps, pending, List.length_cons]
        omega
      · rename_i rest hc
        obtain rfl := Option.some.inj h
        simp only [fuel, hm, hp, hc, mainSteps, pending, List.length_cons]
        omega
      · rename_i hc
        split at h
        · obtain rfl := Option.some.inj h
          simp only [fuel, hm, hp, hc, mainSteps, pending]
          omega
        · cases h
    · cases h
  | call i =>
    simp only at h
    split at h
    · rename_i mi hi
      obtain rfl := Option.some.inj h
      have := sumOver_set stepsLeft s.workers i _ (mi, .running) hi
      simp only [stepsLeft] at this
      simp only [fuel, hp]
      omega
    · cases h
  | ret i w =>
    simp only at h
    split at h
    · rename_i mi hi
      split at h
      · rename_i err _
        obtain rfl := Option.some.inj h
        have := sumOver_set stepsLeft s.workers i _ (mi, .returned err) hi
        simp only [stepsLeft] at this
        simp only [fuel, hp]
        omega
      · rename_i msg _
        obtain rfl := Option.some.inj h
        have := sumOver_set stepsLeft s.workers i _ (mi, .panicking msg) hi
        simp only [stepsLeft] at this
        simp only [fuel, hp]
        omega
    · cases h
  | send i =>
    simp only at h
    split at h
    · rename_i mi hi
      obtain rfl := Option.some.inj h
      have := sumOver_set stepsLeft s.workers i _ (mi, .exiting none) hi
      simp only [stepsLeft] at this
      simp only [fuel, hp]
      omega
    · rename_i mi err hi
      split at h
      · obtain rfl := Option.some.inj h
        simp only [fuel, hp]
        simp
      · split at h
        · obtain rfl := Option.some.inj h
          have := sumOver_set stepsLeft s.workers i _ (mi, .exiting (some err)) hi
          simp only [stepsLeft] at this
          simp only [fuel, hp, List.length_append, List.length_singleton]
          omega
        · cases h
    · cases h
  | done i =>
    simp only at h
    split at h
    · rename_i mi err hi
      split at h
      · obtain rfl := Option.some.inj h
        simp only [fuel, hp]
        simp
      · obtain rfl := Option.some.inj h
        have := sumOver_set stepsLeft s.workers i _ (mi, .done err) hi
        simp only [stepsLeft] at this
        simp only [fuel, hp]
        omega
    · rename_i mi msg hi
      split at h
      · obtain rfl := Option.some.inj h
        simp only [fuel, hp]
        simp
      · obtain rfl := Option.some.inj h
        have := sumOver_set stepsLeft s.workers i _ (mi, .panicked msg) hi
        simp only [stepsLeft] at this
        simp only [fuel, hp]
        omega
    · cases h
  | crash i =>
    simp only at h
    split at h
    · obtain rfl := Option.some.inj h
      simp only [fuel, hp]
      simp
    · cases h

theorem inv_run (acts : List Action) (hinv : Inv catalog s) (h : run s acts = some s') :
    Inv catalog s' ∧ acts.length + fuel s' ≤ fuel s := by
  induction acts generalizing s with
  | nil =>
    obtain rfl := Option.some.inj h
    exact ⟨hinv, by simp⟩
  | cons a acts ih =>
    unfold run at h
    split at h
    · cases h
    · rename_i s1 hs1
      obtain ⟨hinv', hfuel⟩ := ih (inv_step hinv hs1) h
      have := fuel_step hs1
      refine ⟨hinv', ?_⟩
      simp only [List.length_cons]
      omega

/-- Progress: in a state of an execution in which no panic has occurred and the main
goroutine has not returned, some goroutine can take a step. -/
theorem progress (hinv : Inv catalog s) (hp : s.panic = none)
    (hr : ∀ r, s.main ≠ .returned r) : ∃ a s', step s a = some s' := by
  have key : ∀ a, (step s a).isSome = true → ∃ a s', step s a = some s' := by
    intro a ha
    exact ⟨a, _, Option.some_get ha |>.symm⟩
  cases hm : s.main with
  | spawning rest =>
    apply key .main
    cases rest <;> simp [step, hp, hm]
  | closing =>
    apply key .main
    simp [step, hp, hm]
  | collecting =>
    apply key .main
    have hcl : s.closed = true := by rw [hinv.closed, hm]; rfl
    cases hc : s.errChan with
    | nil => simp [step, hp, hm, hc, hcl]
    | cons x rest => cases x <;> simp [step, hp, hm, hc]
  | returned r => exact absurd hm (hr r)
  | waiting =>
    by_cases hwg : s.wg = 0
    · apply key .main
      simp [step, hp, hm, hwg]
    · have hpos : 0 < sumOver live s.workers := by rw [← hinv.wg]; omega
      obtain ⟨p, hpmem, hlive⟩ := exists_pos_of_sumOver_pos live s.workers hpos
      obtain ⟨i, hi⟩ := getElem?_of_mem s.workers p hpmem
      obtain ⟨mi, ph⟩ := p
      cases ph with
      | ready =>
        apply key (.call i)
        simp [step, hp, hi]
      | running =>
        apply key (.ret i (sampleWorld "null"))
        simp only [step, hp, hi]
        split <;> rfl
      | returned err =>
        apply key (.send i)
        cases err with
        | none => simp [step, hp, hi]
        | some e =>
          have h1 := open_of_returned hinv hi
          have h2 := room_of_returned hinv hi
          simp [step, hp, hi, h1, h2]
      | exiting err =>
        apply key (.done i)
        simp [step, hp, hi, hwg]
      | done err => simp [live] at hlive
      | panicking msg =>
        apply key (.done i)
        simp [step, hp, hi, hwg]
      | panicked msg => simp [live] at hlive

theorem traced_mono {hist : List Action} {s : State} (a : Action) (h : Traced hist s) :
    Traced (hist ++ [a]) s := by
  intro i mi ph o hi ho
  obtain ⟨w, hw, hp⟩ := h i mi ph o hi ho
  exact ⟨w, List.mem_append_left _ hw, hp⟩

theorem traced_set {hist : List Action} {s : State} (h : Traced hist s) (i : Nat)
    (mi : MapItem) (ph ph' : Phase) (hi : s.workers[i]? = some (mi, ph))
    (ws' : List (MapItem × Phase)) (hws : ws' = s.workers.set i (mi, ph'))
    (hnew : ∀ o, outcomeOf ph' = some o →
      ∃ w, Action.ret i w ∈ hist ∧ (processMap w mi.Name mi.IsTest).1 = o)
    (s' : State) (hs' : s'.workers = ws') : Traced hist s' := by
  intro j mj ph1 o hj ho
  rw [hs', hws] at hj
  by_cases hij : i = j
  · subst hij
    have hlt : i < s.workers.length := by
      by_contra hge
      rw [List.getElem?_eq_none (by omega)] at hi
      cases hi
    rw [List.getElem?_set_self hlt] at hj
    obtain ⟨rfl, rfl⟩ := Prod.mk.inj (Option.some.inj hj)
    exact hnew o ho
  · rw [List.getElem?_set_ne hij] at hj
    exact h j mj ph1 o hj ho

theorem traced_step {hist : List Action} {s s' : State} {a : Action}
    (h : Traced hist s) (hstep : step s a = some s') : Traced (hist ++ [a]) s' := by
  have h' := traced_mono a h
  unfold step at hstep
  split at hstep
  · cases hstep
  cases a with
  | main =>
    simp only at hstep
    split at hstep
    · rename_i mi rest hm
      obtain rfl := Option.some.inj hstep
      intro j mj ph o hj ho
      simp only at hj
      by_cases hlt : j < s.workers.length
      · rw [List.getElem?_append_left hlt] at hj
        exact h' j mj ph o hj ho
      · rw [List.getElem?_append_right (by omega)] at hj
        by_cases h0 : j - s.workers.length = 0
        · rw [h0] at hj
          simp only [List.getElem?_cons_zero, Option.some.injEq, Prod.mk.injEq] at hj
          rw [← hj.2] at ho
          cases ho
        · obtain ⟨k, hk⟩ := Nat.exists_eq_succ_of_ne_zero h0
          rw [hk] at hj
          simp at hj
    · obtain rfl := Option.some.inj hstep
      exact h'
    · split at hstep
      · obtain rfl := Option.some.inj hstep
        exact h'
      · cases hstep
    · obtain rfl := Option.some.inj hstep
      exact h'
    · split at hstep
      · obtain rfl := Option.some.inj hstep
        exact h'
      · obtain rfl := Option.some.inj hstep
        exact h'
      · split at hstep
        · obtain rfl := Option.some.inj hstep
          exact h'
        · cases hstep
    · cases hstep
  | call i =>
    simp only at hstep
    split at hstep
    · rename_i mi hi
      obtain rfl := Option.some.inj hstep
      exact traced_set h' i mi _ .running hi _ rfl (fun o ho => by cases ho) _ rfl
    · cases hstep
  | ret i w =>
    simp only at hstep
    split at hstep
    · rename_i mi hi
      split at hstep
      · rename_i err hp
        obtain rfl := Option.some.inj hstep
        refine traced_set h' i mi _ (.returned err) hi _ rfl (fun o ho => ?_) _ rfl
        obtain rfl := Option.some.inj ho
        exact ⟨w, List.mem_append_right _ (List.mem_singleton_self _), hp⟩
      · rename_i msg hp
        obtain rfl := Option.some.inj hstep
        refine traced_set h' i mi _ (.panicking msg) hi _ rfl (fun o ho => ?_) _ rfl
        obtain rfl := Option.some.inj ho
        exact ⟨w, List.mem_append_right _ (List.mem_singleton_self _), hp⟩
    · cases hstep
  | send i =>
    simp only at hstep
    split at hstep
    · rename_i mi hi
      obtain rfl := Option.some.inj hstep
      exact traced_set h' i mi _ (.exiting none) hi _ rfl
        (fun o ho => h' i mi _ o hi ho) _ rfl
    · rename_i mi err hi
      split at hstep
      · obtain rfl := Option.some.inj hstep
        exact h'
      · split at hstep
        · obtain rfl := Option.some.inj hstep
          exact traced_set h' i mi _ (.exiting (some err)) hi _ rfl
            (fun o ho => h' i mi _ o hi ho) _ rfl
        · cases hstep
    · cases hstep
  | done i =>
    simp only at hstep
    split at hstep
    · rename_i mi err hi
      split at hstep
      · obtain rfl := Option.some.inj hstep
        exact h'
      · obtain rfl := Option.some.inj hstep
        exact traced_set h' i mi _ (.done err) hi _ rfl
          (fun o ho => h' i mi _ o hi ho) _ rfl
    · rename_i mi msg hi
      split at hstep
      · obtain rfl := Option.some.inj hstep
        exact h'
      · obtain rfl := Option.some.inj hstep
        exact traced_set h' i mi _ (.panicked msg) hi _ rfl
          (fun o ho => h' i mi _ o hi ho) _ rfl
    · cases hstep
  | crash i =>
    simp only at hstep
    split at hstep
    · obtain rfl := Option.some.inj hstep
      exact h'
    · cases hstep

theorem traced_run (acts hist : List Action) {s s' : State} (h : Traced hist s)
    (hrun : run s acts = some s') : Traced (hist ++ acts) s' := by
  induction acts generalizing s hist with
  | nil =>
    obtain rfl := Option.some.inj hrun
    simpa using h
  | cons a acts ih =>
    unfold run at hrun
    split at hrun
    · cases hrun
    · rename_i s1 hs1
      have := ih (hist ++ [a]) (traced_step h hs1) hrun
      simpa using this

theorem traced_init (catalog : List MapItem) : Traced [] (init catalog) := by
  intro i mi ph o hi
  simp [init] at hi

theorem sumOver_called_of_ended (item : MapItem) (ws : List (MapItem × Phase))
    (h : ∀ p ∈ ws, live p = 0) :
    sumOver (called item) ws = (ws.map Prod.fst).count item := by
  induction ws with
  | nil => simp [sumOver]
  | cons p ps ih =>
    have hp := h p (List.mem_cons_self _ _)
    have ih' := ih (fun q hq => h q (List.mem_cons_of_mem _ hq))
    simp only [sumOver, List.map_cons, List.sum_cons, List.count_cons] at ih' ⊢
    rw [ih']
    obtain ⟨mi, ph⟩ := p
    have hc : called item (mi, ph) = if mi = item then 1 else 0 := by
      cases ph <;> simp [live] at hp <;> rfl
    rw [hc]
    by_cases hmi : mi = item
    · simp [hmi]; omega
    · have h' : ¬ (mi == item) = true := by simpa using hmi
      simp [hmi, h']

theorem ended_cases (p : MapItem × Phase) (h : live p = 0) :
    (∃ err, p.2 = .done err) ∨ (∃ msg, p.2 = .panicked msg) := by
  obtain ⟨mi, ph⟩ := p
  cases ph <;> simp [live] at h
  · exact Or.inl ⟨_, rfl⟩
  · exact Or.inr ⟨_, rfl⟩

theorem sentErr_eq_none_iff (p : MapItem × Phase) (h : live p = 0) :
    sentErr p = none ↔ (p.2 = .done none ∨ ∃ msg, p.2 = .panicked msg) := by
  obtain ⟨mi, ph⟩ := p
  cases ph <;> simp [live] at h <;> simp [sentErr]

end loadTerrainMaps

/-- What holds in every interleaving of `loadTerrainMaps` on a catalog: when the function has
returned `r`, `processMap` has been called exactly once for every catalog item (the calls
are a permutation of the catalog), also when other invocations returned errors, and every
one of the goroutines, one per item, has ended; `r` is an error only if an invocation
returned it, and `r` is nil exactly when no invocation returned an error, which, when no
invocation panicked, says that every invocation returned nil.  The outcome recorded for a
goroutine is the outcome of `processMap` on its item.  A panic of the process can
only be the panic of a `processMap`; unless the process has ended so, some goroutine can
take a step until the function has returned, and no interleaving has more than
`6 * len(maps) + 5` steps, so that the function does return. -/
theorem loadTerrainMaps_joins_all (catalog : List MapItem)
    (acts : List loadTerrainMaps.Action) (s : loadTerrainMaps.State)
    (h : loadTerrainMaps.run (loadTerrainMaps.init catalog) acts = some s) :
    (∀ r, s.main = .returned r →
      s.calls.Perm catalog ∧
      s.workers.map Prod.fst = catalog ∧
      (∀ p ∈ s.workers, (∃ err, p.2 = .done err) ∨ (∃ msg, p.2 = .panicked msg)) ∧
      (r = none ↔ ∀ p ∈ s.workers, p.2 = .done none ∨ ∃ msg, p.2 = .panicked msg) ∧
      ((∀ p ∈ s.workers, ∀ msg, p.2 ≠ .panicked msg) →
        (∀ p ∈ s.workers, ∃ err, p.2 = .done err) ∧
        (r = none ↔ ∀ p ∈ s.workers, p.2 = .done none)) ∧
      (∀ e, r = some e → ∃ mi, (mi, loadTerrainMaps.Phase.done (some e)) ∈ s.workers)) ∧
    (∀ (i : Nat) mi err, s.workers[i]? = some (mi, .done err) →
      ∃ w, loadTerrainMaps.Action.ret i w ∈ acts ∧
        (processMap w mi.Name mi.IsTest).1 = .returned err) ∧
    (∀ (i : Nat) mi msg, s.workers[i]? = some (mi, .panicked msg) →
      ∃ w, loadTerrainMaps.Action.ret i w ∈ acts ∧
        (processMap w mi.Name mi.IsTest).1 = .panicked msg) ∧
    (∀ msg, s.panic = some msg →
      ∃ mi, (mi, loadTerrainMaps.Phase.panicked msg) ∈ s.workers) ∧
    (s.panic = none → (∀ r, s.main ≠ .returned r) →
      ∃ a s', loadTerrainMaps.step s a = some s') ∧
    acts.length ≤ 6 * catalog.length + 5 := by
  obtain ⟨hinv, hfuel⟩ := loadTerrainMaps.inv_run acts (loadTerrainMaps.inv_init catalog) h
  have htr : loadTerrainMaps.Traced acts s := by
    have := loadTerrainMaps.traced_run acts [] (loadTerrainMaps.traced_init catalog) h
    simpa using this
  refine ⟨?_, fun i mi err hi => htr i mi _ _ hi rfl, fun i mi msg hi => htr i mi _ _ hi rfl,
    ?_, loadTerrainMaps.progress hinv, ?_⟩
  · intro r hr
    have hdone := hinv.allDone (by rw [hr]; rfl)
    have hitems : s.workers.map Prod.fst = catalog := by
      have := hinv.items
      rw [hr] at this
      simpa [loadTerrainMaps.pending] using this
    have hiff : r = none ↔
        ∀ p ∈ s.workers, p.2 = .done none ∨ ∃ msg, p.2 = .panicked msg := by
      rw [(hinv.ret r hr).1]
      constructor
      · intro hall p hp
        exact (loadTerrainMaps.sentErr_eq_none_iff p (hdone p hp)).1 (hall p hp)
      · intro hall p hp
        exact (loadTerrainMaps.sentErr_eq_none_iff p (hdone p hp)).2 (hall p hp)
    refine ⟨?_, hitems, fun p hp => loadTerrainMaps.ended_cases p (hdone p hp), hiff, ?_,
      (hinv.ret r hr).2⟩
    · rw [List.perm_iff_count]
      intro item
      rw [hinv.calls item, loadTerrainMaps.sumOver_called_of_ended item _ hdone, hitems]
    · intro hnp
      refine ⟨fun p hp => ?_, ?_⟩
      · rcases loadTerrainMaps.ended_cases p (hdone p hp) with hd | ⟨msg, hmsg⟩
        · exact hd
        · exact absurd hmsg (hnp p hp msg)
      · rw [hiff]
        constructor
        · intro hall p hp
          rcases hall p hp with hd | ⟨msg, hmsg⟩
          · exact hd
          · exact absurd hmsg (hnp p hp msg)
        · intro hall p hp
          exact Or.inl (hall p hp)
  · intro msg hmsg
    obtain ⟨p, hp, hpm⟩ := hinv.panicSome msg hmsg
    obtain ⟨mi, ph⟩ := p
    cases ph <;> simp [loadTerrainMaps.panicMsg] at hpm
    subst hpm
    exact ⟨mi, hp⟩
  · have h0 : loadTerrainMaps.fuel (loadTerrainMaps.init catalog) = 6 * catalog.length + 5 := by
      simp [loadTerrainMaps.fuel, loadTerrainMaps.init, loadTerrainMaps.mainSteps,
        loadTerrainMaps.pending, loadTerrainMaps.sumOver]
      omega
    omega

theorem loadTerrainMaps_joins_all_witness :
    loadTerrainMaps.run (loadTerrainMaps.init loadTerrainMaps.sampleCatalog)
      loadTerrainMaps.sampleSchedule = some loadTerrainMaps.sampleFinal ∧
    loadTerrainMaps.sampleFinal.main = .returned (some loadTerrainMaps.sampleError) ∧
    loadTerrainMaps.sampleFinal.calls.Perm loadTerrainMaps.sampleCatalog ∧
    (∀ p ∈ loadTerrainMaps.sampleFinal.workers,
      (∃ err, p.2 = .done err) ∨ (∃ msg, p.2 = .panicked msg)) ∧
    (∃ mi, (mi, loadTerrainMaps.Phase.done (some loadTerrainMaps.sampleError))
      ∈ loadTerrainMaps.sampleFinal.workers) ∧
    loadTerrainMaps.sampleSchedule.length ≤ 6 * loadTerrainMaps.sampleCatalog.length + 5 :=
  have hrun : loadTerrainMaps.run (loadTerrainMaps.init loadTerrainMaps.sampleCatalog)
      loadTerrainMaps.sampleSchedule = some loadTerrainMaps.sampleFinal := by decide
  have hthm := loadTerrainMaps_joins_all loadTerrainMaps.sampleCatalog
    loadTerrainMaps.sampleSchedule loadTerrainMaps.sampleFinal hrun
  ⟨hrun, rfl, (hthm.1 _ rfl).1, (hthm.1 _ rfl).2.2.1, (hthm.1 _ rfl).2.2.2.2.2 _ rfl,
    hthm.2.2.2.2.2⟩

/-- C7 (the code at the failing input): the catalog holds the one item `europe`, whose
`info.json` is the JSON `null`; the `processMap` of its goroutine panics, the goroutine
still runs the deferred `wg.Done()`, and in this interleaving the main goroutine passes
`wg.Wait()`, finds the closed channel empty and returns nil, before the runtime ends the
program with the panic: nil is returned although the only invocation did not succeed. -/
theorem loadTerrainMaps_after_panic :
    (processMap (sampleWorld "null") "europe" false).1
      = .panicked "assignment to entry in nil map" ∧
    loadTerrainMaps.run (loadTerrainMaps.init [⟨"europe", false⟩])
      loadTerrainMaps.panicSchedule = some loadTerrainMaps.panicFinal ∧
    loadTerrainMaps.panicFinal.main = .returned none ∧
    loadTerrainMaps.panicFinal.workers
      = [(⟨"europe", false⟩, .panicked "assignment to entry in nil map")] := by
  decide

end MapGenerator
